import Mathlib

/-!
# WAL replay of the TPD (overflow transaction-slot directory) of zheap

A shallow embedding of `src/backend/access/zheap/tpdxlog.c`: the redo
dispatcher `tpd_redo` and its three handlers `tpd_xlog_allocate_entry`,
`tpd_xlog_clean` and `tpd_xlog_clear_location`.

The page cache is a partial map from block numbers to pages.  A handler takes
the decoded record and the page cache and returns an `Outcome`: either the new
page cache, or a fatal stop together with the page cache at the moment the
error was raised (C mutates the buffers in place, so whatever was written
before an `elog(PANIC)` stays written).

Headers and helper routines that `tpdxlog.c` uses but that are not part of the
translated file (constants, `Assert`, the entry-area routines of `tpd.c`) are
collected in the structure `Env`; the buffer-level primitives are modelled
from the specification and say so in their doc comments.
-/

namespace Zheap

abbrev BlockNumber := Nat
abbrev OffsetNumber := Nat
abbrev XLogRecPtr := Nat

/-- A buffer handle: `none` is `InvalidBuffer`, `some b` is a pinned buffer
holding block `b`. -/
abbrev Buffer := Option BlockNumber

/-- A page.  `area` is the entry area (tuple area for a data page), the part a
full-page image covers; `tpd_prevblkno`/`tpd_nextblkno` are the trailer links
of a directory page (`TPDPageOpaque`); `tpd_location` is the back-reference
kept in the trailer of a data page; `first_used`/`last_used` are the anchor
fields of the metadata page; `lsn` is the stored log position. -/
structure Page (C : Type) where
  area : C
  tpd_prevblkno : BlockNumber
  tpd_nextblkno : BlockNumber
  tpd_location : Option (BlockNumber × OffsetNumber)
  first_used : BlockNumber
  last_used : BlockNumber
  lsn : XLogRecPtr
  deriving DecidableEq

/-- The page cache: which blocks exist and what they hold. -/
abbrev Pages (C : Type) := BlockNumber → Option (Page C)

inductive XLogRedoAction where
  | BLK_NEEDS_REDO
  | BLK_DONE
  | BLK_RESTORED
  | BLK_NOTFOUND
  deriving DecidableEq, Repr

inductive ReadBufferMode where
  | RBM_NORMAL
  | RBM_ZERO_AND_LOCK
  deriving DecidableEq, Repr

/-- One block reference of a record: the block it names, the full-page image
it carries (if any) and its per-block payload bytes. -/
structure BlockRef (C : Type) where
  blkno : BlockNumber
  image : Option C
  data : List Nat

/-- Main data of an allocate-entry record (`xl_tpd_allocate_entry`). -/
structure xl_tpd_allocate_entry where
  offnum : OffsetNumber
  prevblk : BlockNumber
  nextblk : BlockNumber

/-- A decoded record as the handlers see it. -/
structure XLogReaderState (C : Type) where
  EndRecPtr : XLogRecPtr
  info : Nat
  xlrec : xl_tpd_allocate_entry
  blocks : Nat → Option (BlockRef C)

/-- What `tpdxlog.c` takes from headers and from `tpd.c`: the constants, the
build switch behind `Assert`, the entry-area routines and the decoding of the
payload bytes. -/
structure Env (C : Type) where
  XLR_INFO_MASK : Nat
  XLOG_TPD_OPMASK : Nat
  XLOG_ALLOCATE_TPD_ENTRY : Nat
  XLOG_TPD_CLEAN : Nat
  XLOG_TPD_CLEAR_LOCATION : Nat
  XLOG_TPD_INIT_PAGE : Nat
  InvalidOffsetNumber : OffsetNumber
  InvalidBlockNumber : BlockNumber
  ZHEAP_METAPAGE : BlockNumber
  SizeOfMetaData : Nat
  sizeofOffsetNumber : Nat
  /-- Whether `Assert` is compiled in. -/
  USE_ASSERT_CHECKING : Bool
  /-- The entry area of a zero-filled page. -/
  emptyArea : C
  /-- `TPDPageAddEntry(page, entry, size, offnum)`: the new entry area and the
  offset returned. -/
  TPDPageAddEntry : C → List Nat → Nat → OffsetNumber → C × OffsetNumber
  /-- `TPDPagePruneExecute(buf, nowunused, nunused)` on the entry area. -/
  TPDPagePruneExecute : C → List OffsetNumber → C
  /-- Element `i` of the payload read as an array of `OffsetNumber`. -/
  offsetAt : List Nat → Nat → OffsetNumber
  /-- The payload read as `xl_zheap_metadata`: `first_used_tpd_page`. -/
  first_used_tpd_page : List Nat → BlockNumber
  /-- The payload read as `xl_zheap_metadata`: `last_used_tpd_page`. -/
  last_used_tpd_page : List Nat → BlockNumber

/-- Why replay stopped. -/
inductive Fatal where
  | failed_to_add_TPD_entry
  | unknown_op_code (code : Nat)
  | failed_to_locate_backup_block (block_id : Nat)
  | assertion_failed
  | invalid_buffer
  deriving DecidableEq, Repr

/-- Result of a piece of redo code: a value and the page cache, or a fatal stop
with the page cache as it was when the error was raised. -/
inductive Outcome (C : Type) (α : Type) where
  | ok (val : α) (s : Pages C)
  | fatal (why : Fatal) (s : Pages C)

variable {C : Type} {α : Type}

/-- The page cache at the end, or at the moment of the fatal error. -/
def Outcome.pages : Outcome C α → Pages C
  | .ok _ s => s
  | .fatal _ s => s

/-- The code ran to its end. -/
def Outcome.isOk : Outcome C α → Bool
  | .ok _ _ => true
  | .fatal _ _ => false

/-- The page cache with block `b` holding page `p`. -/
def setPage (s : Pages C) (b : BlockNumber) (p : Page C) : Pages C :=
  fun x => if x = b then some p else s x

/-- Modelled from the spec: the Page Accessor of §2, reading the page a buffer
holds (`BufferGetPage`); an invalid buffer holds none. -/
def BufferGetPage (s : Pages C) (buf : Buffer) : Option (Page C) :=
  match buf with
  | none => none
  | some b => s b

/-- Modelled from the spec: the Page Accessor of §2, writing the page a buffer
holds in place. -/
def modifyPage (s : Pages C) (buf : Buffer) (f : Page C → Page C) : Pages C :=
  match buf with
  | none => s
  | some b =>
    match s b with
    | none => s
    | some p => setPage s b (f p)

/-- Modelled from the spec: stamping a page with a log position (§2,
`PageSetLSN`). -/
def PageSetLSN (lsn : XLogRecPtr) (p : Page C) : Page C :=
  { p with lsn := lsn }

/-- Modelled from the spec: whether the record references a page under the
block id (§3, `XLogRecHasBlockRef`). -/
def XLogRecHasBlockRef (record : XLogReaderState C) (block_id : Nat) : Bool :=
  (record.blocks block_id).isSome

/-- Modelled from the spec: the payload bytes the record carries for a block
(§3, `XLogRecGetBlockData`); its length is the `len` the call returns. -/
def XLogRecGetBlockData (record : XLogReaderState C) (block_id : Nat) : List Nat :=
  match record.blocks block_id with
  | none => []
  | some ref => ref.data

/-- A zero-filled page. -/
def zeroPage (env : Env C) : Page C :=
  { area := env.emptyArea, tpd_prevblkno := 0, tpd_nextblkno := 0, tpd_location := none,
    first_used := 0, last_used := 0, lsn := 0 }

/-- Modelled from the spec: restoring a full-page image (§4.4, Reconstruct).
The image overwrites the entry area and the page is stamped with the record's
log position; the trailer is not covered by the image and keeps what it held. -/
def RestoreBlockImage (img : C) (lsn : XLogRecPtr) (old : Page C) : Page C :=
  { old with area := img, lsn := lsn }

/-- Modelled from the spec: the Redo Decision Function of §4.4, the buffer
primitive `XLogReadBufferForRedoExtended` that is not part of the translated
file.  A record that carries a full-page image for the block reconstructs the
page: the image overwrites the entry area, the trailer is not covered by the
image and keeps what it held, and the page is stamped with the record's log
position (`BLK_RESTORED`).  Otherwise the page's stored log position is
compared with the record's: strictly earlier is `BLK_NEEDS_REDO`, anything
else is `BLK_DONE`; a block that does not exist is `BLK_NOTFOUND` with an
invalid buffer.  In zeroing mode the page is handed out zero-filled instead of
being read.  A block id the record does not reference stops replay. -/
def XLogReadBufferForRedoExtended (env : Env C) (record : XLogReaderState C) (block_id : Nat)
    (mode : ReadBufferMode) (_get_cleanup_lock : Bool) (s : Pages C) :
    Outcome C (XLogRedoAction × Buffer) :=
  match record.blocks block_id with
  | none => .fatal (.failed_to_locate_backup_block block_id) s
  | some ref =>
    match ref.image with
    | some img =>
      let old : Page C :=
        match mode with
        | .RBM_NORMAL => (s ref.blkno).getD (zeroPage env)
        | .RBM_ZERO_AND_LOCK => zeroPage env
      .ok (.BLK_RESTORED, some ref.blkno)
        (setPage s ref.blkno (RestoreBlockImage img record.EndRecPtr old))
    | none =>
      match mode with
      | .RBM_ZERO_AND_LOCK =>
        .ok (if record.EndRecPtr ≤ (zeroPage env).lsn then .BLK_DONE else .BLK_NEEDS_REDO,
             some ref.blkno) (setPage s ref.blkno (zeroPage env))
      | .RBM_NORMAL =>
        match s ref.blkno with
        | none => .ok (.BLK_NOTFOUND, none) s
        | some p =>
          if record.EndRecPtr ≤ p.lsn then .ok (.BLK_DONE, some ref.blkno) s
          else .ok (.BLK_NEEDS_REDO, some ref.blkno) s

/-- Modelled from the spec: the Redo Decision Function of §4.4 in normal mode
(`XLogReadBufferForRedo`). -/
def XLogReadBufferForRedo (env : Env C) (record : XLogReaderState C) (block_id : Nat)
    (s : Pages C) : Outcome C (XLogRedoAction × Buffer) :=
  XLogReadBufferForRedoExtended env record block_id .RBM_NORMAL false s

/-- Modelled from the spec: acquiring a page that is initialised fresh rather
than read (§4.5 step 1, `XLogInitBufferForRedo`): the zeroing mode of the
primitive above, the decision being dropped. -/
def XLogInitBufferForRedo (env : Env C) (record : XLogReaderState C) (block_id : Nat)
    (s : Pages C) : Outcome C Buffer :=
  match XLogReadBufferForRedoExtended env record block_id .RBM_ZERO_AND_LOCK false s with
  | .fatal w t => .fatal w t
  | .ok r t => .ok r.2 t

/-- Modelled from the spec: `init(page)` of §4.1 (`TPDInitPage` of `tpd.c`):
zero the entry area and set both trailer links to "none". -/
def TPDInitPage (env : Env C) (p : Page C) : Page C :=
  { p with area := env.emptyArea, tpd_prevblkno := env.InvalidBlockNumber,
           tpd_nextblkno := env.InvalidBlockNumber }

/-- Modelled from the spec: `init(page, first, last)` of §4.2
(`zheap_init_meta_page`): unconditional overwrite of both anchor fields. -/
def zheap_init_meta_page (first_blkno last_blkno : BlockNumber) (p : Page C) : Page C :=
  { p with first_used := first_blkno, last_used := last_blkno }

/-- Modelled from the spec: `set(data_page, dir_page_no, offset)` of §4.3
(`SetTPDLocation`): the back-reference becomes the block number of the
directory buffer and the offset.  The block number of an invalid buffer is not
defined; the model stops there with `invalid_buffer`. -/
def SetTPDLocation (heapbuffer tpdbuffer : Buffer) (offset : OffsetNumber) (s : Pages C) :
    Outcome C Unit :=
  match tpdbuffer with
  | none => .fatal .invalid_buffer s
  | some tpdblk =>
    .ok () (modifyPage s heapbuffer (fun p => { p with tpd_location := some (tpdblk, offset) }))

/-- Modelled from the spec: `clear(data_page)` of §4.3 (`ClearTPDLocation`). -/
def ClearTPDLocation (p : Page C) : Page C :=
  { p with tpd_location := none }

/-- `Assert(cond)`: checked only when assertion checking is compiled in. -/
def assertHolds (env : Env C) (cond : Bool) : Bool :=
  !env.USE_ASSERT_CHECKING || cond

/-- Lines 55–75 of `tpd_xlog_allocate_entry`: the body of the
`action == BLK_NEEDS_REDO` branch for block 0.  The entry is added to the page
in place; an invalid offset stops replay; otherwise the page is stamped, the
offset is asserted to be the record's, and the prev link is written. -/
def tpd_xlog_allocate_entry_add (env : Env C) (record : XLogReaderState C)
    (tpdbuffer : Buffer) (t : Pages C) : Outcome C Buffer :=
  let lsn := record.EndRecPtr
  let xlrec := record.xlrec
  let tpd_entry := XLogRecGetBlockData record 0
  let size_tpd_entry := tpd_entry.length
  match BufferGetPage t tpdbuffer with
  | none => .fatal .invalid_buffer t
  | some tpdpage =>
    let added := env.TPDPageAddEntry tpdpage.area tpd_entry size_tpd_entry xlrec.offnum
    let offnum := added.2
    let t1 := modifyPage t tpdbuffer (fun p => { p with area := added.1 })
    if offnum = env.InvalidOffsetNumber then .fatal .failed_to_add_TPD_entry t1
    else
      let t2 := modifyPage t1 tpdbuffer (PageSetLSN lsn)
      if assertHolds env (decide (offnum = xlrec.offnum)) = false then
        .fatal .assertion_failed t2
      else
        let t3 := modifyPage t2 tpdbuffer (fun p => { p with tpd_prevblkno := xlrec.prevblk })
        .ok tpdbuffer (modifyPage t3 tpdbuffer (PageSetLSN lsn))

/-- Lines 44–90 of `tpd_xlog_allocate_entry`: block 0, the directory page.
Returns `tpdbuffer`. -/
def tpd_xlog_allocate_entry_tpdpage (env : Env C) (record : XLogReaderState C) (s : Pages C) :
    Outcome C Buffer :=
  let lsn := record.EndRecPtr
  let xlrec := record.xlrec
  let rd : Outcome C (XLogRedoAction × Buffer) :=
    if record.info &&& env.XLOG_TPD_INIT_PAGE ≠ 0 then
      match XLogInitBufferForRedo env record 0 s with
      | .fatal w t => .fatal w t
      | .ok tpdbuffer t =>
        .ok (.BLK_NEEDS_REDO, tpdbuffer) (modifyPage t tpdbuffer (TPDInitPage env))
    else XLogReadBufferForRedo env record 0 s
  match rd with
  | .fatal w t => .fatal w t
  | .ok (action, tpdbuffer) t =>
    match action with
    | .BLK_NEEDS_REDO => tpd_xlog_allocate_entry_add env record tpdbuffer t
    | .BLK_RESTORED =>
      let t1 := modifyPage t tpdbuffer (fun p => { p with tpd_prevblkno := xlrec.prevblk })
      .ok tpdbuffer (modifyPage t1 tpdbuffer (PageSetLSN lsn))
    | _ => .ok tpdbuffer t

/-- Lines 92–99 of `tpd_xlog_allocate_entry`: block 1, the data page. -/
def tpd_xlog_allocate_entry_heappage (env : Env C) (record : XLogReaderState C)
    (tpdbuffer : Buffer) (s : Pages C) : Outcome C Unit :=
  let lsn := record.EndRecPtr
  match XLogReadBufferForRedo env record 1 s with
  | .fatal w t => .fatal w t
  | .ok (action, heap_page_buffer) t =>
    if action = .BLK_NEEDS_REDO then
      match SetTPDLocation heap_page_buffer tpdbuffer record.xlrec.offnum t with
      | .fatal w t1 => .fatal w t1
      | .ok _ t1 => .ok () (modifyPage t1 heap_page_buffer (PageSetLSN lsn))
    else .ok () t

/-- Lines 124–143 of `tpd_xlog_allocate_entry`: block 3, the previous chain
tail, if the record references it. -/
def tpd_xlog_allocate_entry_lastused (env : Env C) (record : XLogReaderState C) (s : Pages C) :
    Outcome C Unit :=
  let lsn := record.EndRecPtr
  if XLogRecHasBlockRef record 3 then
    match XLogReadBufferForRedo env record 3 s with
    | .fatal w t => .fatal w t
    | .ok (action, last_used_buf) t =>
      if action = .BLK_NEEDS_REDO ∨ action = .BLK_RESTORED then
        let t1 := modifyPage t last_used_buf
          (fun p => { p with tpd_nextblkno := record.xlrec.nextblk })
        .ok () (modifyPage t1 last_used_buf (PageSetLSN lsn))
      else .ok () t
  else .ok () s

/-- Lines 101–144 of `tpd_xlog_allocate_entry`: block 2, the metadata page,
and inside it block 3. -/
def tpd_xlog_allocate_entry_metapage (env : Env C) (record : XLogReaderState C) (s : Pages C) :
    Outcome C Unit :=
  let lsn := record.EndRecPtr
  if XLogRecHasBlockRef record 2 then
    match XLogInitBufferForRedo env record 2 s with
    | .fatal w t => .fatal w t
    | .ok metabuf t =>
      let ptr := XLogRecGetBlockData record 2
      let len := ptr.length
      if assertHolds env (decide (len = env.SizeOfMetaData)) = false then
        .fatal .assertion_failed t
      else if assertHolds env (decide (metabuf = some env.ZHEAP_METAPAGE)) = false then
        .fatal .assertion_failed t
      else
        let t1 := modifyPage t metabuf
          (zheap_init_meta_page (env.first_used_tpd_page ptr) (env.last_used_tpd_page ptr))
        let t2 := modifyPage t1 metabuf (PageSetLSN lsn)
        tpd_xlog_allocate_entry_lastused env record t2
  else .ok () s

/-- Replay of tpd entry allocation (`tpd_xlog_allocate_entry`, lines 25–154).
Releasing the buffers at the end does not change any page. -/
def tpd_xlog_allocate_entry (env : Env C) (record : XLogReaderState C) (s : Pages C) :
    Outcome C Unit :=
  match tpd_xlog_allocate_entry_tpdpage env record s with
  | .fatal w t => .fatal w t
  | .ok tpdbuffer t =>
    match tpd_xlog_allocate_entry_heappage env record tpdbuffer t with
    | .fatal w t1 => .fatal w t1
    | .ok _ t1 => tpd_xlog_allocate_entry_metapage env record t1

/-- The offsets `nowunused[0 .. nunused)` of a clean record, with
`nunused = datalen / sizeof(OffsetNumber)`. -/
def nowunused (env : Env C) (data : List Nat) : List OffsetNumber :=
  (List.range (data.length / env.sizeofOffsetNumber)).map (env.offsetAt data)

/-- Replay of pruning a tpd page (`tpd_xlog_clean`, lines 159–198). -/
def tpd_xlog_clean (env : Env C) (record : XLogReaderState C) (s : Pages C) : Outcome C Unit :=
  let lsn := record.EndRecPtr
  match XLogReadBufferForRedoExtended env record 0 .RBM_NORMAL true s with
  | .fatal w t => .fatal w t
  | .ok (action, tpdbuf) t =>
    if action = .BLK_NEEDS_REDO then
      let data := XLogRecGetBlockData record 0
      let t1 := modifyPage t tpdbuf
        (fun p => { p with area := env.TPDPagePruneExecute p.area (nowunused env data) })
      .ok () (modifyPage t1 tpdbuf (PageSetLSN lsn))
    else .ok () t

/-- Replay for clearing the tpd location from a heap page
(`tpd_xlog_clear_location`, lines 203–219). -/
def tpd_xlog_clear_location (env : Env C) (record : XLogReaderState C) (s : Pages C) :
    Outcome C Unit :=
  let lsn := record.EndRecPtr
  match XLogReadBufferForRedo env record 0 s with
  | .fatal w t => .fatal w t
  | .ok (action, buffer) t =>
    if action = .BLK_NEEDS_REDO then
      let t1 := modifyPage t buffer ClearTPDLocation
      .ok () (modifyPage t1 buffer (PageSetLSN lsn))
    else .ok () t

/-- The `uint8` value `XLogRecGetInfo(record) & ~XLR_INFO_MASK`. -/
def maskedInfo (env : Env C) (record : XLogReaderState C) : Nat :=
  (record.info % 256) &&& (255 - env.XLR_INFO_MASK % 256)

/-- The operation code the dispatcher switches on. -/
def opCode (env : Env C) (record : XLogReaderState C) : Nat :=
  maskedInfo env record &&& env.XLOG_TPD_OPMASK

/-- The dispatcher `tpd_redo` (lines 221–240). -/
def tpd_redo (env : Env C) (record : XLogReaderState C) (s : Pages C) : Outcome C Unit :=
  let info := maskedInfo env record
  if info &&& env.XLOG_TPD_OPMASK = env.XLOG_ALLOCATE_TPD_ENTRY then
    tpd_xlog_allocate_entry env record s
  else if info &&& env.XLOG_TPD_OPMASK = env.XLOG_TPD_CLEAN then
    tpd_xlog_clean env record s
  else if info &&& env.XLOG_TPD_OPMASK = env.XLOG_TPD_CLEAR_LOCATION then
    tpd_xlog_clear_location env record s
  else .fatal (.unknown_op_code info) s

/-! ## Notions used in the statements -/

/-- The page a zeroing read hands out. -/
def initTarget (env : Env C) (record : XLogReaderState C) (ref : BlockRef C) : Page C :=
  match ref.image with
  | some img => RestoreBlockImage img record.EndRecPtr (zeroPage env)
  | none => zeroPage env

/-- The block a record names under a block id. -/
def refBlk (record : XLogReaderState C) (block_id : Nat) : Option BlockNumber :=
  (record.blocks block_id).map (fun r => r.blkno)

/-- The value a completed piece of redo code returned. -/
def Outcome.val? : Outcome C α → Option α
  | .ok v _ => some v
  | .fatal _ _ => none

/-- The fatal error a piece of redo code stopped with. -/
def Outcome.why? : Outcome C α → Option Fatal
  | .ok _ _ => none
  | .fatal w _ => some w

/-- The decision the Redo Decision Function takes for a block of a record on a
given page cache (`none` when the record does not reference the block). -/
def redoAction (env : Env C) (record : XLogReaderState C) (block_id : Nat) (s : Pages C) :
    Option XLogRedoAction :=
  (XLogReadBufferForRedo env record block_id s).val?.map (fun r => r.1)

/-- The init-page flag of the record is set. -/
def isInitPage (env : Env C) (record : XLogReaderState C) : Prop :=
  record.info &&& env.XLOG_TPD_INIT_PAGE ≠ 0

instance (env : Env C) (record : XLogReaderState C) : Decidable (isInitPage env record) := by
  unfold isInitPage
  exact inferInstance

/-- The offset `TPDPageAddEntry` returns when the entry of the record is added
to a page. -/
def addedOffset (env : Env C) (record : XLogReaderState C) (p : Page C) : OffsetNumber :=
  (env.TPDPageAddEntry p.area (XLogRecGetBlockData record 0)
    (XLogRecGetBlockData record 0).length record.xlrec.offnum).2

/-- The entry area `TPDPageAddEntry` leaves when the entry of the record is
added to a page. -/
def addedArea (env : Env C) (record : XLogReaderState C) (p : Page C) : C :=
  (env.TPDPageAddEntry p.area (XLogRecGetBlockData record 0)
    (XLogRecGetBlockData record 0).length record.xlrec.offnum).1

/-- The directory page after lines 61–75 ran to the end. -/
def addedPage (env : Env C) (record : XLogReaderState C) (p : Page C) : Page C :=
  { p with area := addedArea env record p, tpd_prevblkno := record.xlrec.prevblk,
           lsn := record.EndRecPtr }

/-- The metadata page after lines 108–118. -/
def metaPage (env : Env C) (record : XLogReaderState C) (ref : BlockRef C) : Page C :=
  { initTarget env record ref with
      first_used := env.first_used_tpd_page ref.data,
      last_used := env.last_used_tpd_page ref.data,
      lsn := record.EndRecPtr }

/-- Modelled from the spec: the replay driver of §5, a single sequential
consumer that applies the records strictly in log order and stops at the first
fatal error. -/
def replay (env : Env C) : List (XLogReaderState C) → Pages C → Outcome C Unit
  | [], s => .ok () s
  | record :: rest, s =>
    match tpd_redo env record s with
    | .ok _ t => replay env rest t
    | .fatal w t => .fatal w t

/-- Directory pages `a` and `b` are linked: both exist, `a` points forward to
`b` and `b` points back to `a`. -/
def Linked (s : Pages C) (a b : BlockNumber) : Prop :=
  (s a).map (fun p => p.tpd_nextblkno) = some b ∧ (s b).map (fun p => p.tpd_prevblkno) = some a

instance (s : Pages C) (a b : BlockNumber) : Decidable (Linked s a b) := by
  unfold Linked
  exact inferInstance

/-- The allocate-entry record that creates directory page `cur` in a chain
anchored at metadata page `M` with head `first`: it initialises `cur` as
block 0 with the init-page flag, references `M` as block 2 with payload
(`first`, `cur`), and, when there is a previous tail `pl` (last stamped at
`plLsn`), references it as block 3 with `prevblk = pl`, `nextblk = cur` and a
later log position. -/
def IsChainRecord (env : Env C) (M first : BlockNumber)
    (prev : Option (BlockNumber × XLogRecPtr)) (record : XLogReaderState C)
    (cur : BlockNumber) : Prop :=
  opCode env record = env.XLOG_ALLOCATE_TPD_ENTRY ∧ isInitPage env record ∧
  refBlk record 0 = some cur ∧ refBlk record 2 = some M ∧
  env.first_used_tpd_page (XLogRecGetBlockData record 2) = first ∧
  env.last_used_tpd_page (XLogRecGetBlockData record 2) = cur ∧
  match prev with
  | none => refBlk record 3 = none
  | some pl =>
    refBlk record 3 = some pl.1 ∧ record.xlrec.prevblk = pl.1 ∧
      record.xlrec.nextblk = cur ∧ pl.2 < record.EndRecPtr

/-- A sequence of records, each paired with the directory page it creates,
that builds a chain page by page in log order. -/
def ChainRecords (env : Env C) (M first : BlockNumber) :
    Option (BlockNumber × XLogRecPtr) → List (XLogReaderState C × BlockNumber) → Prop
  | _, [] => True
  | prev, rc :: rest =>
    IsChainRecord env M first prev rc.1 rc.2 ∧
      ChainRecords env M first (some (rc.2, rc.1.EndRecPtr)) rest

/-! ## Page accesses as steps

The second replay of a record is analysed step by step: an access either
always writes the same fields (image restore, page initialisation, metadata
overwrite) or goes through the log-position comparison. -/

/-- A partial assignment to the fields of a page: the fields a write sets, the
others being left as they are. -/
structure Patch (C : Type) where
  area : Option C
  prev : Option BlockNumber
  next : Option BlockNumber
  loc : Option (Option (BlockNumber × OffsetNumber))
  first : Option BlockNumber
  last : Option BlockNumber
  lsn : Option XLogRecPtr

/-- The page after the assigned fields are written. -/
def Patch.apply (π : Patch C) (p : Page C) : Page C :=
  { area := π.area.getD p.area,
    tpd_prevblkno := π.prev.getD p.tpd_prevblkno,
    tpd_nextblkno := π.next.getD p.tpd_nextblkno,
    tpd_location := π.loc.getD p.tpd_location,
    first_used := π.first.getD p.first_used,
    last_used := π.last.getD p.last_used,
    lsn := π.lsn.getD p.lsn }

/-- First `a`, then `b`: the later write wins on a field both assign. -/
def Patch.merge (a b : Patch C) : Patch C :=
  { area := b.area <|> a.area, prev := b.prev <|> a.prev, next := b.next <|> a.next,
    loc := b.loc <|> a.loc, first := b.first <|> a.first, last := b.last <|> a.last,
    lsn := b.lsn <|> a.lsn }

/-- The assignment that writes every field of a page. -/
def Patch.const (c : Page C) : Patch C :=
  { area := some c.area, prev := some c.tpd_prevblkno, next := some c.tpd_nextblkno,
    loc := some c.tpd_location, first := some c.first_used, last := some c.last_used,
    lsn := some c.lsn }

/-- What a step does to the page of its block: nothing, or a write (onto a
zero-filled page when the block does not exist yet). -/
def runWriter (env : Env C) (w : Option (Patch C)) (x : Option (Page C)) : Option (Page C) :=
  match w with
  | none => x
  | some π => some (π.apply (x.getD (zeroPage env)))

/-- First `w₁`, then `w₂`. -/
def compWriter (w₁ w₂ : Option (Patch C)) : Option (Patch C) :=
  match w₁, w₂ with
  | w, none => w
  | none, some b => some b
  | some a, some b => some (a.merge b)

/-- The writes of a sequence of steps, in order. -/
def runWriters (env : Env C) (ws : List (Option (Patch C))) (x : Option (Page C)) :
    Option (Page C) :=
  ws.foldl (fun acc w => runWriter env w acc) x

/-- One page access of a handler, seen from outside: the block, and either the
write it always performs (image restore, page initialisation) or `none` when
it goes through the log-position comparison. -/
structure AStep (C : Type) where
  blk : BlockNumber
  w : Option (Patch C)

/-- The Redo Decision Function skips this page: it is absent or stamped at or
after `L`. -/
def settled (L : XLogRecPtr) (x : Option (Page C)) : Prop :=
  ∀ p, x = some p → L ≤ p.lsn

/-- The page cache with the entry of one block replaced. -/
def updAt (s : Pages C) (b : BlockNumber) (v : Option (Page C)) : Pages C :=
  fun x => if x = b then v else s x

/-- What a step does when replayed on a page cache where the compared pages
are settled. -/
def AStep.again (env : Env C) (σ : AStep C) (y : Pages C) : Pages C :=
  updAt y σ.blk (runWriter env σ.w (y σ.blk))

/-- What a step did in a replay that completed: an unconditional step wrote
its fields; a compared step left its page settled, touched no other block,
and changed nothing if the page was settled already. -/
def AStep.ran (env : Env C) (L : XLogRecPtr) (σ : AStep C) (x x' : Pages C) : Prop :=
  match σ.w with
  | some _ => x' = σ.again env x
  | none => settled L (x' σ.blk) ∧ (∀ b, b ≠ σ.blk → x' b = x b) ∧
      (settled L (x σ.blk) → x' = x)

/-- A completed replay as a sequence of steps from `s` to `d`. -/
def RanChain (env : Env C) (L : XLogRecPtr) : List (AStep C) → Pages C → Pages C → Prop
  | [], s, d => d = s
  | σ :: rest, s, d => ∃ x', σ.ran env L s x' ∧ RanChain env L rest x' d

/-- The steps replayed once more. -/
def againAll (env : Env C) (steps : List (AStep C)) (y : Pages C) : Pages C :=
  steps.foldl (fun acc σ => σ.again env acc) y

/-- Every compared step of a second replay finds its page settled. -/
def AgainSettled (env : Env C) (L : XLogRecPtr) : List (AStep C) → Pages C → Prop
  | [], _ => True
  | σ :: rest, y => (σ.w = none → settled L (y σ.blk)) ∧ AgainSettled env L rest (σ.again env y)

/-- Every unconditional write stamps the page with `L`. -/
def Stamping (L : XLogRecPtr) (steps : List (AStep C)) : Prop :=
  ∀ σ ∈ steps, ∀ π, σ.w = some π → π.lsn = some L

/-- The writes of a sequence of steps that land on block `B`. -/
def writersAt (B : BlockNumber) (steps : List (AStep C)) : List (Option (Patch C)) :=
  steps.map (fun σ => if σ.blk = B then σ.w else none)

/-- The fields a full-page image restore writes. -/
def restorePatch (img : C) (L : XLogRecPtr) : Patch C :=
  { area := some img, prev := none, next := none, loc := none, first := none, last := none,
    lsn := some L }

/-- Block 0 of allocate-entry redo as a step. -/
def tpdStep (env : Env C) (record : XLogReaderState C) (ref : BlockRef C) : AStep C :=
  { blk := ref.blkno,
    w := if isInitPage env record then
        some (Patch.const (addedPage env record (TPDInitPage env (initTarget env record ref))))
      else ref.image.map (fun img =>
        { restorePatch img record.EndRecPtr with prev := some record.xlrec.prevblk }) }

/-- Block 1 of allocate-entry redo as a step. -/
def heapStep (record : XLogReaderState C) (ref : BlockRef C) : AStep C :=
  { blk := ref.blkno, w := ref.image.map (fun img => restorePatch img record.EndRecPtr) }

/-- Block 2 of allocate-entry redo as a step. -/
def metaStep (env : Env C) (record : XLogReaderState C) (ref : BlockRef C) : AStep C :=
  { blk := ref.blkno, w := some (Patch.const (metaPage env record ref)) }

/-- Block 3 of allocate-entry redo as a step. -/
def lastusedStep (record : XLogReaderState C) (ref : BlockRef C) : AStep C :=
  { blk := ref.blkno,
    w := ref.image.map (fun img =>
      { restorePatch img record.EndRecPtr with next := some record.xlrec.nextblk }) }

/-! ## Sample instances used to evaluate the handlers on concrete inputs -/

/-- A small entry area: the list of entries, entry `k` (1-based) at offset `k`.
An entry can be added only at the first free offset; pruning drops the listed
offsets. -/
abbrev SampleArea := List (List Nat)

def sampleAddEntry (area : SampleArea) (entry : List Nat) (_size : Nat) (offnum : OffsetNumber) :
    SampleArea × OffsetNumber :=
  if offnum = area.length + 1 then (area ++ [entry], offnum) else (area, 0)

def samplePrune (area : SampleArea) (unused : List OffsetNumber) : SampleArea :=
  (area.enum.filter (fun e => !(unused.contains (e.1 + 1)))).map (fun e => e.2)

/-- Constants as in the headers of the surrounding system, little-endian
payload decoding, assertion checking compiled in. -/
def sampleEnv : Env SampleArea where
  XLR_INFO_MASK := 0x0F
  XLOG_TPD_OPMASK := 0x70
  XLOG_ALLOCATE_TPD_ENTRY := 0x00
  XLOG_TPD_CLEAN := 0x10
  XLOG_TPD_CLEAR_LOCATION := 0x20
  XLOG_TPD_INIT_PAGE := 0x80
  InvalidOffsetNumber := 0
  InvalidBlockNumber := 0xFFFFFFFF
  ZHEAP_METAPAGE := 0
  SizeOfMetaData := 8
  sizeofOffsetNumber := 2
  USE_ASSERT_CHECKING := true
  emptyArea := []
  TPDPageAddEntry := sampleAddEntry
  TPDPagePruneExecute := samplePrune
  offsetAt := fun data i => data.getD (2 * i) 0 + 256 * data.getD (2 * i + 1) 0
  first_used_tpd_page := fun data => data.getD 0 0
  last_used_tpd_page := fun data => data.getD 4 0

def samplePage (area : SampleArea) (lsn : XLogRecPtr) : Page SampleArea :=
  { area := area, tpd_prevblkno := 7, tpd_nextblkno := 8, tpd_location := some (9, 9),
    first_used := 0, last_used := 0, lsn := lsn }

/-- Pages 5 (a directory page with one entry) and 6 (a data page), both last
stamped at log position 10. -/
def samplePages : Pages SampleArea :=
  fun b => if b = 5 then some (samplePage [[1, 2]] 10)
           else if b = 6 then some (samplePage [] 10) else none

def noBlocks : Nat → Option (BlockRef SampleArea) := fun _ => none

def sampleRecord (info : Nat) (lsn : XLogRecPtr)
    (blocks : Nat → Option (BlockRef SampleArea)) : XLogReaderState SampleArea :=
  { EndRecPtr := lsn, info := info, xlrec := { offnum := 2, prevblk := 3, nextblk := 4 },
    blocks := blocks }

/-- A clean record for block 5 listing offset 2, carrying a full-page image. -/
def cleanImageRecord : XLogReaderState SampleArea :=
  sampleRecord 0x10 20
    (fun i => if i = 0 then some { blkno := 5, image := some [[1, 2], [3, 4]], data := [2, 0] }
              else none)

/-- The same clean record without the image. -/
def cleanDeltaRecord : XLogReaderState SampleArea :=
  sampleRecord 0x10 20
    (fun i => if i = 0 then some { blkno := 5, image := none, data := [1, 0] } else none)

/-- A non-init allocate-entry record at position 20: block 0 is directory page
5 with a full-page image, block 1 is data page 6, block 2 is the metadata page
(block 0 of the relation) with payload (5, 5), block 3 is page 4 with a
full-page image. -/
def allocImageRecord : XLogReaderState SampleArea :=
  sampleRecord 0x00 20
    (fun i =>
      if i = 0 then some { blkno := 5, image := some [[1, 2], [7]], data := [7] }
      else if i = 1 then some { blkno := 6, image := none, data := [] }
      else if i = 2 then some { blkno := 0, image := none, data := [5, 0, 0, 0, 5, 0, 0, 0] }
      else if i = 3 then some { blkno := 4, image := some [[9]], data := [] }
      else none)

/-- A non-init allocate-entry record at position 20 whose directory page 7
does not exist and whose data page 6 needs redo. -/
def allocNotFoundRecord : XLogReaderState SampleArea :=
  sampleRecord 0x00 20
    (fun i =>
      if i = 0 then some { blkno := 7, image := none, data := [7] }
      else if i = 1 then some { blkno := 6, image := none, data := [] }
      else none)

/-- A non-init allocate-entry record at position 20 with full-page images for
both directory page 5 (block 0) and data page 6 (block 1). -/
def allocImagesRecord : XLogReaderState SampleArea :=
  sampleRecord 0x00 20
    (fun i =>
      if i = 0 then some { blkno := 5, image := some [[1, 2], [7]], data := [7] }
      else if i = 1 then some { blkno := 6, image := some [[4]], data := [] }
      else none)

/-- A non-init allocate-entry record at position 20 for directory page 5 and
data page 6, both to be redone from the delta. -/
def allocDeltaRecord : XLogReaderState SampleArea :=
  sampleRecord 0x00 20
    (fun i =>
      if i = 0 then some { blkno := 5, image := none, data := [7] }
      else if i = 1 then some { blkno := 6, image := none, data := [] }
      else none)

/-- A non-init allocate-entry record at position 10, not later than the
position 10 the sample pages 5 and 6 are stamped with. -/
def allocOldRecord : XLogReaderState SampleArea :=
  sampleRecord 0x00 10
    (fun i =>
      if i = 0 then some { blkno := 5, image := none, data := [7] }
      else if i = 1 then some { blkno := 6, image := none, data := [] }
      else none)

/-- A clear-location record at position 20 for data page 6, to be redone from
the delta. -/
def clearDeltaRecord : XLogReaderState SampleArea :=
  sampleRecord 0x20 20
    (fun i => if i = 0 then some { blkno := 6, image := none, data := [] } else none)

/-- A clear-location record at position 20 for data page 6 with a full-page
image. -/
def clearImageRecord : XLogReaderState SampleArea :=
  sampleRecord 0x20 20
    (fun i => if i = 0 then some { blkno := 6, image := some [[4]], data := [] } else none)

/-- An init-page allocate-entry record of the sample chain: it creates
directory page `cur` with data page 6 and metadata payload (11, `cur`). -/
def chainRecord (lsn : XLogRecPtr) (cur : BlockNumber) (prev : Option BlockNumber) :
    XLogReaderState SampleArea :=
  { EndRecPtr := lsn, info := 0x80,
    xlrec := { offnum := 1, prevblk := prev.getD 0xFFFFFFFF, nextblk := cur },
    blocks := fun i =>
      if i = 0 then some { blkno := cur, image := none, data := [7] }
      else if i = 1 then some { blkno := 6, image := none, data := [] }
      else if i = 2 then some { blkno := 0, image := none, data := [11, 0, 0, 0, cur, 0, 0, 0] }
      else if i = 3 then prev.map (fun b => { blkno := b, image := none, data := [] })
      else none }

/-- Three records creating directory pages 11, 12, 13 at positions 20, 30, 40. -/
def sampleChain : List (XLogReaderState SampleArea × BlockNumber) :=
  [(chainRecord 20 11 none, 11), (chainRecord 30 12 (some 11), 12),
   (chainRecord 40 13 (some 12), 13)]

/-! ## Basic facts about the page cache -/

@[simp] theorem setPage_same (s : Pages C) (b : BlockNumber) (p : Page C) :
    setPage s b p b = some p := by
  simp [setPage]

theorem setPage_other (s : Pages C) (b x : BlockNumber) (p : Page C) (h : x ≠ b) :
    setPage s b p x = s x := by
  simp [setPage, h]

/-! ## The buffer primitives, case by case -/

theorem read_noref (env : Env C) (record : XLogReaderState C) (block_id : Nat)
    (mode : ReadBufferMode) (l : Bool) (s : Pages C) (hr : record.blocks block_id = none) :
    XLogReadBufferForRedoExtended env record block_id mode l s
      = .fatal (.failed_to_locate_backup_block block_id) s := by
  simp [XLogReadBufferForRedoExtended, hr]

theorem read_image (env : Env C) (record : XLogReaderState C) (block_id : Nat)
    (l : Bool) (s : Pages C) (ref : BlockRef C) (img : C)
    (hr : record.blocks block_id = some ref) (hi : ref.image = some img) :
    XLogReadBufferForRedoExtended env record block_id .RBM_NORMAL l s
      = .ok (.BLK_RESTORED, some ref.blkno)
          (setPage s ref.blkno
            (RestoreBlockImage img record.EndRecPtr ((s ref.blkno).getD (zeroPage env)))) := by
  simp [XLogReadBufferForRedoExtended, hr, hi]

theorem read_notfound (env : Env C) (record : XLogReaderState C) (block_id : Nat)
    (l : Bool) (s : Pages C) (ref : BlockRef C)
    (hr : record.blocks block_id = some ref) (hi : ref.image = none)
    (hp : s ref.blkno = none) :
    XLogReadBufferForRedoExtended env record block_id .RBM_NORMAL l s
      = .ok (.BLK_NOTFOUND, none) s := by
  simp [XLogReadBufferForRedoExtended, hr, hi, hp]

theorem read_done (env : Env C) (record : XLogReaderState C) (block_id : Nat)
    (l : Bool) (s : Pages C) (ref : BlockRef C) (p : Page C)
    (hr : record.blocks block_id = some ref) (hi : ref.image = none)
    (hp : s ref.blkno = some p) (hl : record.EndRecPtr ≤ p.lsn) :
    XLogReadBufferForRedoExtended env record block_id .RBM_NORMAL l s
      = .ok (.BLK_DONE, some ref.blkno) s := by
  simp [XLogReadBufferForRedoExtended, hr, hi, hp, hl]

theorem read_needs_redo (env : Env C) (record : XLogReaderState C) (block_id : Nat)
    (l : Bool) (s : Pages C) (ref : BlockRef C) (p : Page C)
    (hr : record.blocks block_id = some ref) (hi : ref.image = none)
    (hp : s ref.blkno = some p) (hl : p.lsn < record.EndRecPtr) :
    XLogReadBufferForRedoExtended env record block_id .RBM_NORMAL l s
      = .ok (.BLK_NEEDS_REDO, some ref.blkno) s := by
  simp [XLogReadBufferForRedoExtended, hr, hi, hp, Nat.not_le.mpr hl]

theorem init_noref (env : Env C) (record : XLogReaderState C) (block_id : Nat)
    (s : Pages C) (hr : record.blocks block_id = none) :
    XLogInitBufferForRedo env record block_id s
      = .fatal (.failed_to_locate_backup_block block_id) s := by
  simp [XLogInitBufferForRedo, read_noref, hr]

theorem init_ref (env : Env C) (record : XLogReaderState C) (block_id : Nat)
    (s : Pages C) (ref : BlockRef C) (hr : record.blocks block_id = some ref) :
    XLogInitBufferForRedo env record block_id s
      = .ok (some ref.blkno) (setPage s ref.blkno (initTarget env record ref)) := by
  cases hi : ref.image <;>
    simp [XLogInitBufferForRedo, XLogReadBufferForRedoExtended, hr, hi, initTarget]

/-- Every way a normal-mode read can end. -/
theorem read_cases (env : Env C) (record : XLogReaderState C) (block_id : Nat)
    (l : Bool) (s : Pages C) :
    (record.blocks block_id = none ∧
      XLogReadBufferForRedoExtended env record block_id .RBM_NORMAL l s
        = .fatal (.failed_to_locate_backup_block block_id) s) ∨
    (∃ ref img, record.blocks block_id = some ref ∧ ref.image = some img ∧
      XLogReadBufferForRedoExtended env record block_id .RBM_NORMAL l s
        = .ok (.BLK_RESTORED, some ref.blkno)
            (setPage s ref.blkno
              (RestoreBlockImage img record.EndRecPtr ((s ref.blkno).getD (zeroPage env))))) ∨
    (∃ ref, record.blocks block_id = some ref ∧ ref.image = none ∧ s ref.blkno = none ∧
      XLogReadBufferForRedoExtended env record block_id .RBM_NORMAL l s
        = .ok (.BLK_NOTFOUND, none) s) ∨
    (∃ ref p, record.blocks block_id = some ref ∧ ref.image = none ∧ s ref.blkno = some p ∧
      record.EndRecPtr ≤ p.lsn ∧
      XLogReadBufferForRedoExtended env record block_id .RBM_NORMAL l s
        = .ok (.BLK_DONE, some ref.blkno) s) ∨
    (∃ ref p, record.blocks block_id = some ref ∧ ref.image = none ∧ s ref.blkno = some p ∧
      p.lsn < record.EndRecPtr ∧
      XLogReadBufferForRedoExtended env record block_id .RBM_NORMAL l s
        = .ok (.BLK_NEEDS_REDO, some ref.blkno) s) := by
  cases hr : record.blocks block_id with
  | none => exact Or.inl ⟨rfl, read_noref env record block_id _ l s hr⟩
  | some ref =>
    right
    cases hi : ref.image with
    | some img => exact Or.inl ⟨ref, img, rfl, hi, read_image env record block_id l s ref img hr hi⟩
    | none =>
      right
      cases hp : s ref.blkno with
      | none => exact Or.inl ⟨ref, rfl, hi, hp, read_notfound env record block_id l s ref hr hi hp⟩
      | some p =>
        right
        by_cases hl : record.EndRecPtr ≤ p.lsn
        · exact Or.inl ⟨ref, p, rfl, hi, hp, hl, read_done env record block_id l s ref p hr hi hp hl⟩
        · exact Or.inr ⟨ref, p, rfl, hi, hp, Nat.not_le.mp hl,
            read_needs_redo env record block_id l s ref p hr hi hp (Nat.not_le.mp hl)⟩

theorem refBlk_some (record : XLogReaderState C) (block_id : Nat) (ref : BlockRef C)
    (hr : record.blocks block_id = some ref) : refBlk record block_id = some ref.blkno := by
  simp [refBlk, hr]

/-! ## C1: the dispatcher -/

/-- C1: `tpd_redo` dispatches on the masked operation code alone.  With the
three case labels pairwise distinct (as a C `switch` requires), a record whose
code is `XLOG_ALLOCATE_TPD_ENTRY`, `XLOG_TPD_CLEAN` or
`XLOG_TPD_CLEAR_LOCATION` gets exactly the outcome of the matching handler,
and any other code stops replay with the unknown-op-code error, the page cache
being the one the dispatcher was given. -/
theorem tpd_redo_dispatch (env : Env C) (record : XLogReaderState C) (s : Pages C)
    (h12 : env.XLOG_ALLOCATE_TPD_ENTRY ≠ env.XLOG_TPD_CLEAN)
    (h13 : env.XLOG_ALLOCATE_TPD_ENTRY ≠ env.XLOG_TPD_CLEAR_LOCATION)
    (h23 : env.XLOG_TPD_CLEAN ≠ env.XLOG_TPD_CLEAR_LOCATION) :
    (opCode env record = env.XLOG_ALLOCATE_TPD_ENTRY →
        tpd_redo env record s = tpd_xlog_allocate_entry env record s) ∧
    (opCode env record = env.XLOG_TPD_CLEAN →
        tpd_redo env record s = tpd_xlog_clean env record s) ∧
    (opCode env record = env.XLOG_TPD_CLEAR_LOCATION →
        tpd_redo env record s = tpd_xlog_clear_location env record s) ∧
    (opCode env record ≠ env.XLOG_ALLOCATE_TPD_ENTRY →
      opCode env record ≠ env.XLOG_TPD_CLEAN →
      opCode env record ≠ env.XLOG_TPD_CLEAR_LOCATION →
        tpd_redo env record s = .fatal (.unknown_op_code (maskedInfo env record)) s) := by
  unfold tpd_redo opCode
  refine ⟨?_, ?_, ?_, ?_⟩
  · intro h
    simp [h]
  · intro h
    simp [h, Ne.symm h12]
  · intro h
    simp [h, Ne.symm h13, Ne.symm h23]
  · intro h1 h2 h3
    simp [h1, h2, h3]

/-- Witness for C1 on the sample instance: codes `0x00`, `0x10` and `0x20`
reach the three handlers, and code `0x30`, none of the three, stops replay
without touching the page cache. -/
theorem tpd_redo_dispatch_witness :
    tpd_redo sampleEnv allocDeltaRecord samplePages
        = tpd_xlog_allocate_entry sampleEnv allocDeltaRecord samplePages ∧
      tpd_redo sampleEnv cleanDeltaRecord samplePages
        = tpd_xlog_clean sampleEnv cleanDeltaRecord samplePages ∧
      tpd_redo sampleEnv clearDeltaRecord samplePages
        = tpd_xlog_clear_location sampleEnv clearDeltaRecord samplePages ∧
      tpd_redo sampleEnv (sampleRecord 0x30 20 noBlocks) samplePages
        = .fatal (.unknown_op_code 0x30) samplePages :=
  ⟨(tpd_redo_dispatch sampleEnv allocDeltaRecord samplePages
      (by decide) (by decide) (by decide)).1 (by decide),
   (tpd_redo_dispatch sampleEnv cleanDeltaRecord samplePages
      (by decide) (by decide) (by decide)).2.1 (by decide),
   (tpd_redo_dispatch sampleEnv clearDeltaRecord samplePages
      (by decide) (by decide) (by decide)).2.2.1 (by decide),
   (tpd_redo_dispatch sampleEnv (sampleRecord 0x30 20 noBlocks) samplePages
      (by decide) (by decide) (by decide)).2.2.2 (by decide) (by decide) (by decide)⟩

/-! ## C9: clean redo -/

theorem modifyPage_some (s : Pages C) (b : BlockNumber) (p : Page C)
    (hp : s b = some p) (f : Page C → Page C) : modifyPage s (some b) f = setPage s b (f p) := by
  simp [modifyPage, hp]

theorem setPage_setPage (s : Pages C) (b : BlockNumber) (p q : Page C) :
    setPage (setPage s b p) b q = setPage s b q := by
  funext x
  by_cases h : x = b <;> simp [setPage, h]

theorem modifyPage_setPage (s : Pages C) (b : BlockNumber) (p : Page C) (f : Page C → Page C) :
    modifyPage (setPage s b p) (some b) f = setPage s b (f p) := by
  rw [modifyPage_some (setPage s b p) b p (setPage_same s b p) f, setPage_setPage]

theorem clean_restored (env : Env C) (record : XLogReaderState C) (s : Pages C)
    (ref : BlockRef C) (img : C) (hr : record.blocks 0 = some ref) (hi : ref.image = some img) :
    tpd_xlog_clean env record s = .ok () (setPage s ref.blkno
      (RestoreBlockImage img record.EndRecPtr ((s ref.blkno).getD (zeroPage env)))) := by
  simp [tpd_xlog_clean, read_image env record 0 true s ref img hr hi]

/-- C9 (amended): `tpd_xlog_clean` prunes only on apply-delta.  When block 0
needs redo, the entry area becomes one application of `TPDPagePruneExecute` to
the old area with the offsets of the payload (payload length divided by the
size of an offset number, in payload order) and the page is stamped; when
block 0 carries a full-page image the page is restored from the image and
nothing is pruned; and in every case each existing page keeps its prev/next
trailer links. -/
theorem tpd_xlog_clean_effect (env : Env C) (record : XLogReaderState C) (s : Pages C) :
    (∀ ref p, record.blocks 0 = some ref → ref.image = none → s ref.blkno = some p →
        p.lsn < record.EndRecPtr →
        tpd_xlog_clean env record s = .ok () (setPage s ref.blkno
          { p with area := env.TPDPagePruneExecute p.area (nowunused env ref.data),
                   lsn := record.EndRecPtr })) ∧
    (∀ ref img, record.blocks 0 = some ref → ref.image = some img →
        tpd_xlog_clean env record s = .ok () (setPage s ref.blkno
          (RestoreBlockImage img record.EndRecPtr ((s ref.blkno).getD (zeroPage env))))) ∧
    (∀ x p, s x = some p → ∃ q, (tpd_xlog_clean env record s).pages x = some q ∧
        q.tpd_prevblkno = p.tpd_prevblkno ∧ q.tpd_nextblkno = p.tpd_nextblkno) := by
  refine ⟨?_, ?_, ?_⟩
  · intro ref p hr hi hp hl
    simp [tpd_xlog_clean, read_needs_redo env record 0 true s ref p hr hi hp hl,
      modifyPage_some s ref.blkno p hp, modifyPage_setPage, XLogRecGetBlockData, hr, PageSetLSN]
  · intro ref img hr hi
    simp [tpd_xlog_clean, read_image env record 0 true s ref img hr hi]
  · intro x p hx
    rcases read_cases env record 0 true s with
      ⟨_, h⟩ | ⟨ref, img, hr, hi, h⟩ | ⟨ref, hr, hi, hp, h⟩ | ⟨ref, q, hr, hi, hp, hl, h⟩ |
      ⟨ref, q, hr, hi, hp, hl, h⟩
    · exact ⟨p, by simp [tpd_xlog_clean, h, Outcome.pages, hx], rfl, rfl⟩
    · by_cases hb : x = ref.blkno
      · subst hb
        exact ⟨RestoreBlockImage img record.EndRecPtr p,
          by simp [tpd_xlog_clean, h, Outcome.pages, hx], rfl, rfl⟩
      · exact ⟨p, by simp [tpd_xlog_clean, h, Outcome.pages, setPage_other, hb, hx], rfl, rfl⟩
    · exact ⟨p, by simp [tpd_xlog_clean, h, Outcome.pages, hx], rfl, rfl⟩
    · exact ⟨p, by simp [tpd_xlog_clean, h, Outcome.pages, hx], rfl, rfl⟩
    · by_cases hb : x = ref.blkno
      · subst hb
        rw [hp] at hx
        cases hx
        exact ⟨PageSetLSN record.EndRecPtr { p with
            area := env.TPDPagePruneExecute p.area (nowunused env (XLogRecGetBlockData record 0)) },
          by simp [tpd_xlog_clean, h, Outcome.pages, modifyPage_some s ref.blkno p hp,
            modifyPage_setPage],
          rfl, rfl⟩
      · exact ⟨p, by simp [tpd_xlog_clean, h, Outcome.pages, modifyPage_some s ref.blkno q hp,
          modifyPage_setPage, setPage_other, hb, hx], rfl, rfl⟩

/-- Witness for C9 (amended): the delta clean record on the sample pages
prunes offset 1 of block 5 and stamps the page; the clean record with an image
restores the image; page 5 keeps its links 7 and 8. -/
theorem tpd_xlog_clean_effect_witness :
    tpd_xlog_clean sampleEnv cleanDeltaRecord samplePages
        = .ok () (setPage samplePages 5
            { samplePage [[1, 2]] 10 with
                area := sampleEnv.TPDPagePruneExecute [[1, 2]] (nowunused sampleEnv [1, 0]),
                lsn := 20 }) ∧
      tpd_xlog_clean sampleEnv cleanImageRecord samplePages
        = .ok () (setPage samplePages 5
            (RestoreBlockImage [[1, 2], [3, 4]] 20
              ((samplePages 5).getD (zeroPage sampleEnv)))) ∧
      ∃ q, (tpd_xlog_clean sampleEnv cleanDeltaRecord samplePages).pages 5 = some q ∧
        q.tpd_prevblkno = 7 ∧ q.tpd_nextblkno = 8 :=
  ⟨(tpd_xlog_clean_effect sampleEnv cleanDeltaRecord samplePages).1
      { blkno := 5, image := none, data := [1, 0] } (samplePage [[1, 2]] 10) rfl rfl rfl
      (by decide),
   (tpd_xlog_clean_effect sampleEnv cleanImageRecord samplePages).2.1
      { blkno := 5, image := some [[1, 2], [3, 4]], data := [2, 0] } [[1, 2], [3, 4]] rfl rfl,
   (tpd_xlog_clean_effect sampleEnv cleanDeltaRecord samplePages).2.2 5
      (samplePage [[1, 2]] 10) rfl⟩

/-- C9 fails as stated: for a clean record that carries a full-page image the
decision is `BLK_RESTORED` and the entry area afterwards is the image itself:
neither the image nor the old area pruned of the listed offset 2. -/
theorem tpd_xlog_clean_restored_counterexample :
    redoAction sampleEnv cleanImageRecord 0 samplePages = some .BLK_RESTORED ∧
    ((tpd_xlog_clean sampleEnv cleanImageRecord samplePages).pages 5).map (fun p => p.area)
      = some [[1, 2], [3, 4]] ∧
    nowunused sampleEnv (XLogRecGetBlockData cleanImageRecord 0) = [2] ∧
    ((tpd_xlog_clean sampleEnv cleanImageRecord samplePages).pages 5).map (fun p => p.area)
      ≠ some (sampleEnv.TPDPagePruneExecute [[1, 2], [3, 4]]
          (nowunused sampleEnv (XLogRecGetBlockData cleanImageRecord 0))) ∧
    ((tpd_xlog_clean sampleEnv cleanImageRecord samplePages).pages 5).map (fun p => p.area)
      ≠ (samplePages 5).map (fun p => sampleEnv.TPDPagePruneExecute p.area
          (nowunused sampleEnv (XLogRecGetBlockData cleanImageRecord 0))) := by
  refine ⟨?_, ?_, ?_, ?_, ?_⟩ <;> decide

/-! ## The parts of allocate-entry redo, case by case -/

theorem add_some (env : Env C) (record : XLogReaderState C) (t : Pages C) (b : BlockNumber)
    (p : Page C) (hp : t b = some p) :
    tpd_xlog_allocate_entry_add env record (some b) t =
      if addedOffset env record p = env.InvalidOffsetNumber then
        .fatal .failed_to_add_TPD_entry (setPage t b { p with area := addedArea env record p })
      else if assertHolds env (decide (addedOffset env record p = record.xlrec.offnum)) = false then
        .fatal .assertion_failed
          (setPage t b { p with area := addedArea env record p, lsn := record.EndRecPtr })
      else .ok (some b) (setPage t b (addedPage env record p)) := by
  simp only [tpd_xlog_allocate_entry_add, BufferGetPage, hp, modifyPage_some t b p hp,
    modifyPage_setPage, PageSetLSN, addedOffset, addedArea, addedPage]

theorem tpdpage_noref (env : Env C) (record : XLogReaderState C) (s : Pages C)
    (hr : record.blocks 0 = none) :
    tpd_xlog_allocate_entry_tpdpage env record s
      = .fatal (.failed_to_locate_backup_block 0) s := by
  by_cases hf : record.info &&& env.XLOG_TPD_INIT_PAGE = 0 <;>
    simp [tpd_xlog_allocate_entry_tpdpage, hf, init_noref, XLogReadBufferForRedo, read_noref, hr]

theorem tpdpage_init (env : Env C) (record : XLogReaderState C) (s : Pages C) (ref : BlockRef C)
    (hf : isInitPage env record) (hr : record.blocks 0 = some ref) :
    tpd_xlog_allocate_entry_tpdpage env record s
      = tpd_xlog_allocate_entry_add env record (some ref.blkno)
          (setPage s ref.blkno (TPDInitPage env (initTarget env record ref))) := by
  unfold isInitPage at hf
  simp [tpd_xlog_allocate_entry_tpdpage, hf, init_ref env record 0 s ref hr, modifyPage_setPage]

theorem tpdpage_needs_redo (env : Env C) (record : XLogReaderState C) (s : Pages C)
    (ref : BlockRef C) (p : Page C) (hf : ¬ isInitPage env record)
    (hr : record.blocks 0 = some ref) (hi : ref.image = none) (hp : s ref.blkno = some p)
    (hl : p.lsn < record.EndRecPtr) :
    tpd_xlog_allocate_entry_tpdpage env record s
      = tpd_xlog_allocate_entry_add env record (some ref.blkno) s := by
  unfold isInitPage at hf
  simp [tpd_xlog_allocate_entry_tpdpage, hf, XLogReadBufferForRedo,
    read_needs_redo env record 0 false s ref p hr hi hp hl]

theorem tpdpage_restored (env : Env C) (record : XLogReaderState C) (s : Pages C)
    (ref : BlockRef C) (img : C) (hf : ¬ isInitPage env record)
    (hr : record.blocks 0 = some ref) (hi : ref.image = some img) :
    tpd_xlog_allocate_entry_tpdpage env record s
      = .ok (some ref.blkno) (setPage s ref.blkno
          { RestoreBlockImage img record.EndRecPtr ((s ref.blkno).getD (zeroPage env)) with
              tpd_prevblkno := record.xlrec.prevblk }) := by
  unfold isInitPage at hf
  simp [tpd_xlog_allocate_entry_tpdpage, hf, XLogReadBufferForRedo,
    read_image env record 0 false s ref img hr hi, modifyPage_setPage, PageSetLSN,
    RestoreBlockImage]

theorem tpdpage_done (env : Env C) (record : XLogReaderState C) (s : Pages C)
    (ref : BlockRef C) (p : Page C) (hf : ¬ isInitPage env record)
    (hr : record.blocks 0 = some ref) (hi : ref.image = none) (hp : s ref.blkno = some p)
    (hl : record.EndRecPtr ≤ p.lsn) :
    tpd_xlog_allocate_entry_tpdpage env record s = .ok (some ref.blkno) s := by
  unfold isInitPage at hf
  simp [tpd_xlog_allocate_entry_tpdpage, hf, XLogReadBufferForRedo,
    read_done env record 0 false s ref p hr hi hp hl]

theorem tpdpage_notfound (env : Env C) (record : XLogReaderState C) (s : Pages C)
    (ref : BlockRef C) (hf : ¬ isInitPage env record)
    (hr : record.blocks 0 = some ref) (hi : ref.image = none) (hp : s ref.blkno = none) :
    tpd_xlog_allocate_entry_tpdpage env record s = .ok none s := by
  unfold isInitPage at hf
  simp [tpd_xlog_allocate_entry_tpdpage, hf, XLogReadBufferForRedo,
    read_notfound env record 0 false s ref hr hi hp]

theorem heappage_noref (env : Env C) (record : XLogReaderState C) (buf : Buffer) (t : Pages C)
    (hr : record.blocks 1 = none) :
    tpd_xlog_allocate_entry_heappage env record buf t
      = .fatal (.failed_to_locate_backup_block 1) t := by
  simp [tpd_xlog_allocate_entry_heappage, XLogReadBufferForRedo, read_noref, hr]

theorem heappage_restored (env : Env C) (record : XLogReaderState C) (buf : Buffer)
    (t : Pages C) (ref : BlockRef C) (img : C)
    (hr : record.blocks 1 = some ref) (hi : ref.image = some img) :
    tpd_xlog_allocate_entry_heappage env record buf t
      = .ok () (setPage t ref.blkno
          (RestoreBlockImage img record.EndRecPtr ((t ref.blkno).getD (zeroPage env)))) := by
  simp [tpd_xlog_allocate_entry_heappage, XLogReadBufferForRedo,
    read_image env record 1 false t ref img hr hi]

theorem heappage_done (env : Env C) (record : XLogReaderState C) (buf : Buffer)
    (t : Pages C) (ref : BlockRef C) (p : Page C)
    (hr : record.blocks 1 = some ref) (hi : ref.image = none) (hp : t ref.blkno = some p)
    (hl : record.EndRecPtr ≤ p.lsn) :
    tpd_xlog_allocate_entry_heappage env record buf t = .ok () t := by
  simp [tpd_xlog_allocate_entry_heappage, XLogReadBufferForRedo,
    read_done env record 1 false t ref p hr hi hp hl]

theorem heappage_notfound (env : Env C) (record : XLogReaderState C) (buf : Buffer)
    (t : Pages C) (ref : BlockRef C)
    (hr : record.blocks 1 = some ref) (hi : ref.image = none) (hp : t ref.blkno = none) :
    tpd_xlog_allocate_entry_heappage env record buf t = .ok () t := by
  simp [tpd_xlog_allocate_entry_heappage, XLogReadBufferForRedo,
    read_notfound env record 1 false t ref hr hi hp]

theorem heappage_needs_redo (env : Env C) (record : XLogReaderState C) (tpdblk : BlockNumber)
    (t : Pages C) (ref : BlockRef C) (p : Page C)
    (hr : record.blocks 1 = some ref) (hi : ref.image = none) (hp : t ref.blkno = some p)
    (hl : p.lsn < record.EndRecPtr) :
    tpd_xlog_allocate_entry_heappage env record (some tpdblk) t
      = .ok () (setPage t ref.blkno
          { p with tpd_location := some (tpdblk, record.xlrec.offnum),
                   lsn := record.EndRecPtr }) := by
  simp [tpd_xlog_allocate_entry_heappage, XLogReadBufferForRedo,
    read_needs_redo env record 1 false t ref p hr hi hp hl, SetTPDLocation,
    modifyPage_some t ref.blkno p hp, modifyPage_setPage, PageSetLSN]

theorem heappage_needs_redo_invalid (env : Env C) (record : XLogReaderState C)
    (t : Pages C) (ref : BlockRef C) (p : Page C)
    (hr : record.blocks 1 = some ref) (hi : ref.image = none) (hp : t ref.blkno = some p)
    (hl : p.lsn < record.EndRecPtr) :
    tpd_xlog_allocate_entry_heappage env record none t = .fatal .invalid_buffer t := by
  simp [tpd_xlog_allocate_entry_heappage, XLogReadBufferForRedo,
    read_needs_redo env record 1 false t ref p hr hi hp hl, SetTPDLocation]

theorem lastused_noref (env : Env C) (record : XLogReaderState C) (t : Pages C)
    (hr : record.blocks 3 = none) :
    tpd_xlog_allocate_entry_lastused env record t = .ok () t := by
  simp [tpd_xlog_allocate_entry_lastused, XLogRecHasBlockRef, hr]

theorem lastused_restored (env : Env C) (record : XLogReaderState C)
    (t : Pages C) (ref : BlockRef C) (img : C)
    (hr : record.blocks 3 = some ref) (hi : ref.image = some img) :
    tpd_xlog_allocate_entry_lastused env record t
      = .ok () (setPage t ref.blkno
          { RestoreBlockImage img record.EndRecPtr ((t ref.blkno).getD (zeroPage env)) with
              tpd_nextblkno := record.xlrec.nextblk }) := by
  simp [tpd_xlog_allocate_entry_lastused, XLogRecHasBlockRef, hr, XLogReadBufferForRedo,
    read_image env record 3 false t ref img hr hi, modifyPage_setPage, PageSetLSN,
    RestoreBlockImage]

theorem lastused_needs_redo (env : Env C) (record : XLogReaderState C)
    (t : Pages C) (ref : BlockRef C) (p : Page C)
    (hr : record.blocks 3 = some ref) (hi : ref.image = none) (hp : t ref.blkno = some p)
    (hl : p.lsn < record.EndRecPtr) :
    tpd_xlog_allocate_entry_lastused env record t
      = .ok () (setPage t ref.blkno
          { p with tpd_nextblkno := record.xlrec.nextblk, lsn := record.EndRecPtr }) := by
  simp [tpd_xlog_allocate_entry_lastused, XLogRecHasBlockRef, hr, XLogReadBufferForRedo,
    read_needs_redo env record 3 false t ref p hr hi hp hl, modifyPage_some t ref.blkno p hp,
    modifyPage_setPage, PageSetLSN]

theorem lastused_done (env : Env C) (record : XLogReaderState C)
    (t : Pages C) (ref : BlockRef C) (p : Page C)
    (hr : record.blocks 3 = some ref) (hi : ref.image = none) (hp : t ref.blkno = some p)
    (hl : record.EndRecPtr ≤ p.lsn) :
    tpd_xlog_allocate_entry_lastused env record t = .ok () t := by
  simp [tpd_xlog_allocate_entry_lastused, XLogRecHasBlockRef, hr, XLogReadBufferForRedo,
    read_done env record 3 false t ref p hr hi hp hl]

theorem lastused_notfound (env : Env C) (record : XLogReaderState C)
    (t : Pages C) (ref : BlockRef C)
    (hr : record.blocks 3 = some ref) (hi : ref.image = none) (hp : t ref.blkno = none) :
    tpd_xlog_allocate_entry_lastused env record t = .ok () t := by
  simp [tpd_xlog_allocate_entry_lastused, XLogRecHasBlockRef, hr, XLogReadBufferForRedo,
    read_notfound env record 3 false t ref hr hi hp]

theorem metapage_noref (env : Env C) (record : XLogReaderState C) (t : Pages C)
    (hr : record.blocks 2 = none) :
    tpd_xlog_allocate_entry_metapage env record t = .ok () t := by
  simp [tpd_xlog_allocate_entry_metapage, XLogRecHasBlockRef, hr]

theorem metapage_ref (env : Env C) (record : XLogReaderState C) (t : Pages C)
    (ref : BlockRef C) (hr : record.blocks 2 = some ref) :
    tpd_xlog_allocate_entry_metapage env record t =
      if assertHolds env (decide (ref.data.length = env.SizeOfMetaData)) = false then
        .fatal .assertion_failed (setPage t ref.blkno (initTarget env record ref))
      else if assertHolds env (decide (ref.blkno = env.ZHEAP_METAPAGE)) = false then
        .fatal .assertion_failed (setPage t ref.blkno (initTarget env record ref))
      else tpd_xlog_allocate_entry_lastused env record
        (setPage t ref.blkno (metaPage env record ref)) := by
  simp [tpd_xlog_allocate_entry_metapage, XLogRecHasBlockRef, hr, init_ref env record 2 t ref hr,
    XLogRecGetBlockData, modifyPage_setPage, PageSetLSN, zheap_init_meta_page,
    metaPage]

/-! ## Each part touches only the blocks it names -/

theorem add_frame (env : Env C) (record : XLogReaderState C) (t : Pages C) (b x : BlockNumber)
    (hx : x ≠ b) : (tpd_xlog_allocate_entry_add env record (some b) t).pages x = t x := by
  cases hp : t b with
  | none => simp [tpd_xlog_allocate_entry_add, BufferGetPage, hp, Outcome.pages]
  | some p =>
    rw [add_some env record t b p hp]
    split
    · simp [Outcome.pages, setPage_other, hx]
    · split <;> simp [Outcome.pages, setPage_other, hx]

theorem tpdpage_frame (env : Env C) (record : XLogReaderState C) (s : Pages C) (x : BlockNumber)
    (hx : refBlk record 0 ≠ some x) :
    (tpd_xlog_allocate_entry_tpdpage env record s).pages x = s x := by
  cases hr0 : record.blocks 0 with
  | none => simp [tpdpage_noref env record s hr0, Outcome.pages]
  | some r =>
    have hb : x ≠ r.blkno := fun e => hx (by simp [refBlk, hr0, e])
    by_cases hf : isInitPage env record
    · rw [tpdpage_init env record s r hf hr0, add_frame env record _ _ _ hb, setPage_other _ _ _ _ hb]
    · rcases read_cases env record 0 false s with
        ⟨hr, _⟩ | ⟨ref, img, hr, hi, _⟩ | ⟨ref, hr, hi, hp, _⟩ | ⟨ref, q, hr, hi, hp, hl, _⟩ |
        ⟨ref, q, hr, hi, hp, hl, _⟩
      · simp [hr0] at hr
      · rw [hr0] at hr
        cases hr
        simp [tpdpage_restored env record s r img hf hr0 hi, Outcome.pages, setPage_other, hb]
      · rw [hr0] at hr
        cases hr
        simp [tpdpage_notfound env record s r hf hr0 hi hp, Outcome.pages]
      · rw [hr0] at hr
        cases hr
        simp [tpdpage_done env record s r q hf hr0 hi hp hl, Outcome.pages]
      · rw [hr0] at hr
        cases hr
        rw [tpdpage_needs_redo env record s r q hf hr0 hi hp hl, add_frame env record _ _ _ hb]

theorem heappage_frame (env : Env C) (record : XLogReaderState C) (buf : Buffer) (t : Pages C)
    (x : BlockNumber) (hx : refBlk record 1 ≠ some x) :
    (tpd_xlog_allocate_entry_heappage env record buf t).pages x = t x := by
  rcases read_cases env record 1 false t with
    ⟨hr, _⟩ | ⟨ref, img, hr, hi, _⟩ | ⟨ref, hr, hi, hp, _⟩ | ⟨ref, q, hr, hi, hp, hl, _⟩ |
    ⟨ref, q, hr, hi, hp, hl, _⟩
  · simp [heappage_noref env record buf t hr, Outcome.pages]
  · have hb : x ≠ ref.blkno := fun e => hx (by simp [refBlk, hr, e])
    simp [heappage_restored env record buf t ref img hr hi, Outcome.pages, setPage_other, hb]
  · simp [heappage_notfound env record buf t ref hr hi hp, Outcome.pages]
  · simp [heappage_done env record buf t ref q hr hi hp hl, Outcome.pages]
  · have hb : x ≠ ref.blkno := fun e => hx (by simp [refBlk, hr, e])
    cases buf with
    | none => simp [heappage_needs_redo_invalid env record t ref q hr hi hp hl, Outcome.pages]
    | some b0 =>
      simp [heappage_needs_redo env record b0 t ref q hr hi hp hl, Outcome.pages, setPage_other,
        hb]

theorem lastused_frame (env : Env C) (record : XLogReaderState C) (t : Pages C)
    (x : BlockNumber) (hx : refBlk record 3 ≠ some x) :
    (tpd_xlog_allocate_entry_lastused env record t).pages x = t x := by
  rcases read_cases env record 3 false t with
    ⟨hr, _⟩ | ⟨ref, img, hr, hi, _⟩ | ⟨ref, hr, hi, hp, _⟩ | ⟨ref, q, hr, hi, hp, hl, _⟩ |
    ⟨ref, q, hr, hi, hp, hl, _⟩
  · simp [lastused_noref env record t hr, Outcome.pages]
  · have hb : x ≠ ref.blkno := fun e => hx (by simp [refBlk, hr, e])
    simp [lastused_restored env record t ref img hr hi, Outcome.pages, setPage_other, hb]
  · simp [lastused_notfound env record t ref hr hi hp, Outcome.pages]
  · simp [lastused_done env record t ref q hr hi hp hl, Outcome.pages]
  · have hb : x ≠ ref.blkno := fun e => hx (by simp [refBlk, hr, e])
    simp [lastused_needs_redo env record t ref q hr hi hp hl, Outcome.pages, setPage_other, hb]

theorem metapage_frame (env : Env C) (record : XLogReaderState C) (t : Pages C)
    (x : BlockNumber) (h2 : refBlk record 2 ≠ some x) (h3 : refBlk record 3 ≠ some x) :
    (tpd_xlog_allocate_entry_metapage env record t).pages x = t x := by
  cases hr : record.blocks 2 with
  | none => simp [metapage_noref env record t hr, Outcome.pages]
  | some ref =>
    have hb : x ≠ ref.blkno := fun e => h2 (by simp [refBlk, hr, e])
    rw [metapage_ref env record t ref hr]
    split
    · simp [Outcome.pages, setPage_other, hb]
    · split
      · simp [Outcome.pages, setPage_other, hb]
      · rw [lastused_frame env record _ x h3, setPage_other _ _ _ _ hb]

theorem allocate_of_tpd_fatal (env : Env C) (record : XLogReaderState C) (s t : Pages C)
    (w : Fatal) (ha : tpd_xlog_allocate_entry_tpdpage env record s = .fatal w t) :
    tpd_xlog_allocate_entry env record s = .fatal w t := by
  simp [tpd_xlog_allocate_entry, ha]

theorem allocate_of_heap_fatal (env : Env C) (record : XLogReaderState C) (s t t1 : Pages C)
    (buf : Buffer) (w : Fatal)
    (ha : tpd_xlog_allocate_entry_tpdpage env record s = .ok buf t)
    (hb : tpd_xlog_allocate_entry_heappage env record buf t = .fatal w t1) :
    tpd_xlog_allocate_entry env record s = .fatal w t1 := by
  simp [tpd_xlog_allocate_entry, ha, hb]

theorem allocate_of_heap_ok (env : Env C) (record : XLogReaderState C) (s t t1 : Pages C)
    (buf : Buffer) (u : Unit)
    (ha : tpd_xlog_allocate_entry_tpdpage env record s = .ok buf t)
    (hb : tpd_xlog_allocate_entry_heappage env record buf t = .ok u t1) :
    tpd_xlog_allocate_entry env record s = tpd_xlog_allocate_entry_metapage env record t1 := by
  simp [tpd_xlog_allocate_entry, ha, hb]

/-- A block that the record names under none of the ids 0–3 is left alone by
allocate-entry redo, whether it completes or stops. -/
theorem allocate_entry_frame (env : Env C) (record : XLogReaderState C) (s : Pages C)
    (x : BlockNumber) (h0 : refBlk record 0 ≠ some x) (h1 : refBlk record 1 ≠ some x)
    (h2 : refBlk record 2 ≠ some x) (h3 : refBlk record 3 ≠ some x) :
    (tpd_xlog_allocate_entry env record s).pages x = s x := by
  have e0 := tpdpage_frame env record s x h0
  cases ha : tpd_xlog_allocate_entry_tpdpage env record s with
  | fatal w t =>
    rw [ha] at e0
    rw [allocate_of_tpd_fatal env record s t w ha]
    exact e0
  | ok buf t =>
    rw [ha] at e0
    have e1 := heappage_frame env record buf t x h1
    cases hb : tpd_xlog_allocate_entry_heappage env record buf t with
    | fatal w t1 =>
      rw [hb] at e1
      rw [allocate_of_heap_fatal env record s t t1 buf w ha hb]
      exact e1.trans e0
    | ok u t1 =>
      rw [hb] at e1
      rw [allocate_of_heap_ok env record s t t1 buf u ha hb,
        metapage_frame env record t1 x h2 h3]
      exact e1.trans e0

/-- Normal completion of allocate-entry redo is normal completion of its
three parts in turn. -/
theorem allocate_ok_inv (env : Env C) (record : XLogReaderState C) (s : Pages C)
    (h : (tpd_xlog_allocate_entry env record s).isOk = true) :
    ∃ buf t t1, tpd_xlog_allocate_entry_tpdpage env record s = .ok buf t ∧
      tpd_xlog_allocate_entry_heappage env record buf t = .ok () t1 ∧
      tpd_xlog_allocate_entry env record s = tpd_xlog_allocate_entry_metapage env record t1 := by
  cases ha : tpd_xlog_allocate_entry_tpdpage env record s with
  | fatal w t =>
    rw [allocate_of_tpd_fatal env record s t w ha] at h
    simp [Outcome.isOk] at h
  | ok buf t =>
    cases hb : tpd_xlog_allocate_entry_heappage env record buf t with
    | fatal w t1 =>
      rw [allocate_of_heap_fatal env record s t t1 buf w ha hb] at h
      simp [Outcome.isOk] at h
    | ok u t1 =>
      exact ⟨buf, t, t1, rfl, hb, allocate_of_heap_ok env record s t t1 buf u ha hb⟩

theorem tpdpage_pages_of_ok (env : Env C) (record : XLogReaderState C) (s t : Pages C)
    (buf : Buffer) (x : BlockNumber) (h0 : refBlk record 0 ≠ some x)
    (ha : tpd_xlog_allocate_entry_tpdpage env record s = .ok buf t) : t x = s x := by
  have e := tpdpage_frame env record s x h0
  rw [ha] at e
  exact e

theorem heappage_pages_of_ok (env : Env C) (record : XLogReaderState C) (t t1 : Pages C)
    (buf : Buffer) (u : Unit) (x : BlockNumber) (h1 : refBlk record 1 ≠ some x)
    (hb : tpd_xlog_allocate_entry_heappage env record buf t = .ok u t1) : t1 x = t x := by
  have e := heappage_frame env record buf t x h1
  rw [hb] at e
  exact e

/-- What the Redo Decision Function answers, in terms of the record and the
page. -/
theorem redoAction_eq (env : Env C) (record : XLogReaderState C) (block_id : Nat) (s : Pages C) :
    (record.blocks block_id = none ∧ redoAction env record block_id s = none) ∨
    (∃ ref img, record.blocks block_id = some ref ∧ ref.image = some img ∧
      redoAction env record block_id s = some .BLK_RESTORED) ∨
    (∃ ref, record.blocks block_id = some ref ∧ ref.image = none ∧ s ref.blkno = none ∧
      redoAction env record block_id s = some .BLK_NOTFOUND) ∨
    (∃ ref p, record.blocks block_id = some ref ∧ ref.image = none ∧ s ref.blkno = some p ∧
      record.EndRecPtr ≤ p.lsn ∧ redoAction env record block_id s = some .BLK_DONE) ∨
    (∃ ref p, record.blocks block_id = some ref ∧ ref.image = none ∧ s ref.blkno = some p ∧
      p.lsn < record.EndRecPtr ∧ redoAction env record block_id s = some .BLK_NEEDS_REDO) := by
  rcases read_cases env record block_id false s with
    ⟨hr, h⟩ | ⟨ref, img, hr, hi, h⟩ | ⟨ref, hr, hi, hp, h⟩ | ⟨ref, q, hr, hi, hp, hl, h⟩ |
    ⟨ref, q, hr, hi, hp, hl, h⟩
  · exact Or.inl ⟨hr, by simp [redoAction, XLogReadBufferForRedo, h, Outcome.val?]⟩
  · exact Or.inr (Or.inl ⟨ref, img, hr, hi,
      by simp [redoAction, XLogReadBufferForRedo, h, Outcome.val?]⟩)
  · exact Or.inr (Or.inr (Or.inl ⟨ref, hr, hi, hp,
      by simp [redoAction, XLogReadBufferForRedo, h, Outcome.val?]⟩))
  · exact Or.inr (Or.inr (Or.inr (Or.inl ⟨ref, q, hr, hi, hp, hl,
      by simp [redoAction, XLogReadBufferForRedo, h, Outcome.val?]⟩)))
  · exact Or.inr (Or.inr (Or.inr (Or.inr ⟨ref, q, hr, hi, hp, hl,
      by simp [redoAction, XLogReadBufferForRedo, h, Outcome.val?]⟩)))

theorem redoAction_restored (env : Env C) (record : XLogReaderState C) (block_id : Nat)
    (s : Pages C) (h : redoAction env record block_id s = some .BLK_RESTORED) :
    ∃ ref img, record.blocks block_id = some ref ∧ ref.image = some img := by
  rcases redoAction_eq env record block_id s with
    ⟨_, e⟩ | ⟨ref, img, hr, hi, _⟩ | ⟨_, _, _, _, e⟩ | ⟨_, _, _, _, _, _, e⟩ |
    ⟨_, _, _, _, _, _, e⟩
  · rw [e] at h; cases h
  · exact ⟨ref, img, hr, hi⟩
  · rw [e] at h; cases h
  · rw [e] at h; cases h
  · rw [e] at h; cases h

theorem redoAction_needs_redo (env : Env C) (record : XLogReaderState C) (block_id : Nat)
    (s : Pages C) (h : redoAction env record block_id s = some .BLK_NEEDS_REDO) :
    ∃ ref p, record.blocks block_id = some ref ∧ ref.image = none ∧ s ref.blkno = some p ∧
      p.lsn < record.EndRecPtr := by
  rcases redoAction_eq env record block_id s with
    ⟨_, e⟩ | ⟨_, _, _, _, e⟩ | ⟨_, _, _, _, e⟩ | ⟨_, _, _, _, _, _, e⟩ |
    ⟨ref, p, hr, hi, hp, hl, _⟩
  · rw [e] at h; cases h
  · rw [e] at h; cases h
  · rw [e] at h; cases h
  · rw [e] at h; cases h
  · exact ⟨ref, p, hr, hi, hp, hl⟩

theorem redoAction_done (env : Env C) (record : XLogReaderState C) (block_id : Nat)
    (s : Pages C) (h : redoAction env record block_id s = some .BLK_DONE) :
    ∃ ref p, record.blocks block_id = some ref ∧ ref.image = none ∧ s ref.blkno = some p ∧
      record.EndRecPtr ≤ p.lsn := by
  rcases redoAction_eq env record block_id s with
    ⟨_, e⟩ | ⟨_, _, _, _, e⟩ | ⟨_, _, _, _, e⟩ | ⟨ref, p, hr, hi, hp, hl, _⟩ |
    ⟨_, _, _, _, _, _, e⟩
  · rw [e] at h; cases h
  · rw [e] at h; cases h
  · rw [e] at h; cases h
  · exact ⟨ref, p, hr, hi, hp, hl⟩
  · rw [e] at h; cases h

theorem allocate_pages_eq_tpdpage (env : Env C) (record : XLogReaderState C) (s : Pages C)
    (x : BlockNumber) (h1 : refBlk record 1 ≠ some x)
    (h2 : refBlk record 2 ≠ some x) (h3 : refBlk record 3 ≠ some x) :
    (tpd_xlog_allocate_entry env record s).pages x
      = (tpd_xlog_allocate_entry_tpdpage env record s).pages x := by
  cases ha : tpd_xlog_allocate_entry_tpdpage env record s with
  | fatal w t =>
    rw [allocate_of_tpd_fatal env record s t w ha]
    rfl
  | ok buf t =>
    have e1 := heappage_frame env record buf t x h1
    cases hb : tpd_xlog_allocate_entry_heappage env record buf t with
    | fatal w t1 =>
      rw [hb] at e1
      rw [allocate_of_heap_fatal env record s t t1 buf w ha hb]
      exact e1
    | ok u t1 =>
      rw [hb] at e1
      rw [allocate_of_heap_ok env record s t t1 buf u ha hb,
        metapage_frame env record t1 x h2 h3]
      exact e1

/-- When block 3 is restored or needs redo, lines 124–143 write the next link
and stamp the page. -/
theorem lastused_sets_next (env : Env C) (record : XLogReaderState C) (t : Pages C)
    (ref : BlockRef C) (hr : record.blocks 3 = some ref)
    (hd : (∃ img, ref.image = some img) ∨
          (ref.image = none ∧ ∃ p, t ref.blkno = some p ∧ p.lsn < record.EndRecPtr)) :
    ∃ q, tpd_xlog_allocate_entry_lastused env record t = .ok () (setPage t ref.blkno q) ∧
      q.tpd_nextblkno = record.xlrec.nextblk ∧ q.lsn = record.EndRecPtr ∧
      ∀ p, t ref.blkno = some p → q.tpd_prevblkno = p.tpd_prevblkno := by
  rcases hd with ⟨img, hi⟩ | ⟨hi, p, hp, hl⟩
  · refine ⟨_, lastused_restored env record t ref img hr hi, rfl, rfl, ?_⟩
    intro p hp
    simp [hp, RestoreBlockImage]
  · refine ⟨_, lastused_needs_redo env record t ref p hr hi hp hl, rfl, rfl, ?_⟩
    intro p' hp'
    rw [hp] at hp'
    cases hp'
    rfl

/-- When the metadata part completes, both assertions held and the outcome is
that of lines 124–143 run on the overwritten metadata page. -/
theorem metapage_ok_inv (env : Env C) (record : XLogReaderState C) (t : Pages C)
    (ref : BlockRef C) (hr : record.blocks 2 = some ref)
    (h : (tpd_xlog_allocate_entry_metapage env record t).isOk = true) :
    tpd_xlog_allocate_entry_metapage env record t
      = tpd_xlog_allocate_entry_lastused env record
          (setPage t ref.blkno (metaPage env record ref)) := by
  rw [metapage_ref env record t ref hr] at h ⊢
  split at h
  · simp [Outcome.isOk] at h
  · split at h
    · simp [Outcome.isOk] at h
    · rename_i h1 h2
      simp [h1, h2]

/-- After a completed allocate-entry redo, a block 3 that was restored or
needed redo carries the record's next link and end position. -/
theorem allocate_lastused_link (env : Env C) (record : XLogReaderState C) (s : Pages C)
    (b3 : BlockNumber) (hm : XLogRecHasBlockRef record 2 = true)
    (hb3 : refBlk record 3 = some b3)
    (hd : redoAction env record 3 s = some .BLK_RESTORED ∨
      redoAction env record 3 s = some .BLK_NEEDS_REDO)
    (h0 : refBlk record 0 ≠ some b3) (h1 : refBlk record 1 ≠ some b3)
    (h2 : refBlk record 2 ≠ some b3)
    (hok : (tpd_xlog_allocate_entry env record s).isOk = true) :
    ∃ q, (tpd_xlog_allocate_entry env record s).pages b3 = some q ∧
      q.tpd_nextblkno = record.xlrec.nextblk ∧ q.lsn = record.EndRecPtr ∧
      ∀ p, s b3 = some p → q.tpd_prevblkno = p.tpd_prevblkno := by
  obtain ⟨buf, t, t1, ha, hb, heq⟩ := allocate_ok_inv env record s hok
  cases hr2 : record.blocks 2 with
  | none => simp [XLogRecHasBlockRef, hr2] at hm
  | some r2 =>
    cases hr3 : record.blocks 3 with
    | none => simp [refBlk, hr3] at hb3
    | some r3 =>
      have hbe : b3 = r3.blkno := by
        rw [refBlk_some record 3 r3 hr3] at hb3
        exact (Option.some.inj hb3).symm
      subst hbe
      have hne : r3.blkno ≠ r2.blkno := fun e => h2 (by rw [refBlk_some record 2 r2 hr2, e])
      have hpage : setPage t1 r2.blkno (metaPage env record r2) r3.blkno = s r3.blkno := by
        rw [setPage_other _ _ _ _ hne, heappage_pages_of_ok env record t t1 buf () _ h1 hb,
          tpdpage_pages_of_ok env record s t buf _ h0 ha]
      rw [heq] at hok ⊢
      rw [metapage_ok_inv env record t1 r2 hr2 hok]
      have hd' : (∃ img, r3.image = some img) ∨
          (r3.image = none ∧ ∃ p, setPage t1 r2.blkno (metaPage env record r2) r3.blkno = some p ∧
            p.lsn < record.EndRecPtr) := by
        rcases hd with hd | hd
        · obtain ⟨ref, img, hr, hi⟩ := redoAction_restored env record 3 s hd
          rw [hr3] at hr
          cases hr
          exact Or.inl ⟨img, hi⟩
        · obtain ⟨ref, p, hr, hi, hp, hl⟩ := redoAction_needs_redo env record 3 s hd
          rw [hr3] at hr
          cases hr
          exact Or.inr ⟨hi, p, by rw [hpage, hp], hl⟩
      obtain ⟨q, hq, hn, hlsn, hprev⟩ := lastused_sets_next env record _ r3 hr3 hd'
      rw [hq]
      simp only [Outcome.pages, setPage_same]
      exact ⟨q, rfl, hn, hlsn, fun p hp => hprev p (by rw [hpage, hp])⟩

/-! ## C3: trailer links survive a full-page image -/

/-- C3: in allocate-entry redo the link trailers are written also when the
page comes from a full-page image.  If block 0 of a non-init record is
`BLK_RESTORED`, the page's `tpd_prevblkno` afterwards is the record's
`prevblk` and its log position the record's end position, whatever the page
held before.  If blocks 2 and 3 are referenced and block 3 is `BLK_RESTORED`
or `BLK_NEEDS_REDO`, then after the handler completed its `tpd_nextblkno` is
the record's `nextblk` and its log position the record's end position.  The
page in question is named by the record under one block id only. -/
theorem allocate_entry_links_survive_image (env : Env C) (record : XLogReaderState C)
    (s : Pages C) :
    (∀ b0, ¬ isInitPage env record → refBlk record 0 = some b0 →
      redoAction env record 0 s = some .BLK_RESTORED →
      refBlk record 1 ≠ some b0 → refBlk record 2 ≠ some b0 → refBlk record 3 ≠ some b0 →
      ∃ q, (tpd_xlog_allocate_entry env record s).pages b0 = some q ∧
        q.tpd_prevblkno = record.xlrec.prevblk ∧ q.lsn = record.EndRecPtr) ∧
    (∀ b3, XLogRecHasBlockRef record 2 = true → refBlk record 3 = some b3 →
      (redoAction env record 3 s = some .BLK_RESTORED ∨
        redoAction env record 3 s = some .BLK_NEEDS_REDO) →
      refBlk record 0 ≠ some b3 → refBlk record 1 ≠ some b3 → refBlk record 2 ≠ some b3 →
      (tpd_xlog_allocate_entry env record s).isOk = true →
      ∃ q, (tpd_xlog_allocate_entry env record s).pages b3 = some q ∧
        q.tpd_nextblkno = record.xlrec.nextblk ∧ q.lsn = record.EndRecPtr) := by
  refine ⟨?_, ?_⟩
  · intro b0 hf hb0 hd h1 h2 h3
    obtain ⟨ref, img, hr, hi⟩ := redoAction_restored env record 0 s hd
    have hb : b0 = ref.blkno := by
      rw [refBlk_some record 0 ref hr] at hb0
      exact (Option.some.inj hb0).symm
    subst hb
    rw [allocate_pages_eq_tpdpage env record s _ h1 h2 h3,
      tpdpage_restored env record s ref img hf hr hi]
    simp only [Outcome.pages, setPage_same]
    exact ⟨_, rfl, rfl, rfl⟩
  · intro b3 hm hb3 hd h0 h1 h2 hok
    obtain ⟨q, hq, hn, hlsn, _⟩ := allocate_lastused_link env record s b3 hm hb3 hd h0 h1 h2 hok
    exact ⟨q, hq, hn, hlsn⟩

/-- Witness for C3: block 0 of the sample record carries an image of page 5;
afterwards page 5 has the record's prev link 3 and position 20 (it held prev
link 7 and position 10 before).  Block 3 carries an image of page 4;
afterwards page 4 has the record's next link 4 and position 20. -/
theorem allocate_entry_links_survive_image_witness :
    (∃ q, (tpd_xlog_allocate_entry sampleEnv allocImageRecord samplePages).pages 5 = some q ∧
      q.tpd_prevblkno = 3 ∧ q.lsn = 20) ∧
    (∃ q, (tpd_xlog_allocate_entry sampleEnv allocImageRecord samplePages).pages 4 = some q ∧
      q.tpd_nextblkno = 4 ∧ q.lsn = 20) :=
  ⟨(allocate_entry_links_survive_image sampleEnv allocImageRecord samplePages).1 5
      (by decide) (by decide) (by decide) (by decide) (by decide) (by decide),
   (allocate_entry_links_survive_image sampleEnv allocImageRecord samplePages).2 4
      (by decide) (by decide) (by decide) (by decide) (by decide) (by decide) (by decide)⟩

/-- After a completed allocate-entry redo the page of block 2 holds the
record's anchor fields and end position. -/
theorem allocate_metadata_fields (env : Env C) (record : XLogReaderState C) (s : Pages C)
    (r2 : BlockRef C) (hr2 : record.blocks 2 = some r2)
    (h3 : refBlk record 3 ≠ some r2.blkno)
    (hok : (tpd_xlog_allocate_entry env record s).isOk = true) :
    ∃ q, (tpd_xlog_allocate_entry env record s).pages r2.blkno = some q ∧
      q.first_used = env.first_used_tpd_page r2.data ∧
      q.last_used = env.last_used_tpd_page r2.data ∧ q.lsn = record.EndRecPtr := by
  obtain ⟨buf, t, t1, ha, hb, heq⟩ := allocate_ok_inv env record s hok
  rw [heq] at hok ⊢
  rw [metapage_ok_inv env record t1 r2 hr2 hok, lastused_frame env record _ _ h3, setPage_same]
  exact ⟨_, rfl, rfl, rfl, rfl⟩

/-! ## C7: the metadata page is overwritten unconditionally -/

/-- C7: metadata redo is an unconditional overwrite.  For a record that
references block 2 (named under no other id by block 3), whatever the page
cache held before, once `tpd_xlog_allocate_entry` completed the metadata page
has the record's `first_used_tpd_page` and `last_used_tpd_page` and the
record's end position; and when block 2 is not referenced, every page other
than those named by blocks 0 and 1 — the metadata page and the page of a
block-3 reference among them — is as it was. -/
theorem allocate_entry_metadata_overwrite (env : Env C) (record : XLogReaderState C)
    (s : Pages C) :
    (∀ r2, record.blocks 2 = some r2 → refBlk record 3 ≠ some r2.blkno →
      (tpd_xlog_allocate_entry env record s).isOk = true →
      ∃ q, (tpd_xlog_allocate_entry env record s).pages r2.blkno = some q ∧
        q.first_used = env.first_used_tpd_page r2.data ∧
        q.last_used = env.last_used_tpd_page r2.data ∧ q.lsn = record.EndRecPtr) ∧
    (record.blocks 2 = none → ∀ x, refBlk record 0 ≠ some x → refBlk record 1 ≠ some x →
      (tpd_xlog_allocate_entry env record s).pages x = s x) := by
  refine ⟨?_, ?_⟩
  · intro r2 hr2 h3 hok
    exact allocate_metadata_fields env record s r2 hr2 h3 hok
  · intro hr2 x h0 h1
    have e0 := tpdpage_frame env record s x h0
    cases ha : tpd_xlog_allocate_entry_tpdpage env record s with
    | fatal w t =>
      rw [ha] at e0
      rw [allocate_of_tpd_fatal env record s t w ha]
      exact e0
    | ok buf t =>
      rw [ha] at e0
      have e1 := heappage_frame env record buf t x h1
      cases hb : tpd_xlog_allocate_entry_heappage env record buf t with
      | fatal w t1 =>
        rw [hb] at e1
        rw [allocate_of_heap_fatal env record s t t1 buf w ha hb]
        exact e1.trans e0
      | ok u t1 =>
        rw [hb] at e1
        rw [allocate_of_heap_ok env record s t t1 buf u ha hb, metapage_noref env record t1 hr2]
        exact e1.trans e0

/-- Witness for C7: the sample record references the metadata page (block 0
of the relation, absent from the sample pages) with payload (5, 5); the record
without block 2 leaves the metadata page and page 4 as they were. -/
theorem allocate_entry_metadata_overwrite_witness :
    (∃ q, (tpd_xlog_allocate_entry sampleEnv allocImageRecord samplePages).pages 0 = some q ∧
      q.first_used = 5 ∧ q.last_used = 5 ∧ q.lsn = 20) ∧
    (tpd_xlog_allocate_entry sampleEnv allocDeltaRecord samplePages).pages 0 = samplePages 0 ∧
    (tpd_xlog_allocate_entry sampleEnv allocDeltaRecord samplePages).pages 4 = samplePages 4 :=
  ⟨(allocate_entry_metadata_overwrite sampleEnv allocImageRecord samplePages).1
      { blkno := 0, image := none, data := [5, 0, 0, 0, 5, 0, 0, 0] } rfl (by decide) (by decide),
   (allocate_entry_metadata_overwrite sampleEnv allocDeltaRecord samplePages).2 rfl 0
      (by decide) (by decide),
   (allocate_entry_metadata_overwrite sampleEnv allocDeltaRecord samplePages).2 rfl 4
      (by decide) (by decide)⟩

/-! ## C6: offset fidelity of `TPDPageAddEntry` on redo -/

/-- C10 fails on the code: when the directory page of a non-init record does
not exist (`BLK_NOTFOUND`), `tpdbuffer` is `InvalidBuffer`; the data page
needs redo, so `SetTPDLocation` is called with that invalid buffer.  The
model stops there: no back-reference (7, `offnum`) is written. -/
theorem allocate_entry_invalid_tpdbuffer :
    redoAction sampleEnv allocNotFoundRecord 0 samplePages = some .BLK_NOTFOUND ∧
    (tpd_xlog_allocate_entry_tpdpage sampleEnv allocNotFoundRecord samplePages).val?
      = some none ∧
    redoAction sampleEnv allocNotFoundRecord 1 samplePages = some .BLK_NEEDS_REDO ∧
    (tpd_xlog_allocate_entry sampleEnv allocNotFoundRecord samplePages).why?
      = some .invalid_buffer ∧
    ((tpd_xlog_allocate_entry sampleEnv allocNotFoundRecord samplePages).pages 6).map
      (fun q => q.tpd_location) = some (some (9, 9)) := by
  refine ⟨?_, ?_, ?_, ?_, ?_⟩ <;> decide

/-! ## C4: the back-reference of the data page -/

theorem add_buffer (env : Env C) (record : XLogReaderState C) (t t' : Pages C)
    (b : BlockNumber) (buf : Buffer)
    (h : tpd_xlog_allocate_entry_add env record (some b) t = .ok buf t') : buf = some b := by
  cases hp : t b with
  | none => simp [tpd_xlog_allocate_entry_add, BufferGetPage, hp] at h
  | some p =>
    rw [add_some env record t b p hp] at h
    split at h
    · cases h
    · split at h
      · cases h
      · cases h
        rfl

/-- A valid `tpdbuffer` holds the block the record names as block 0. -/
theorem tpdpage_buffer (env : Env C) (record : XLogReaderState C) (s t : Pages C)
    (b : BlockNumber)
    (h : tpd_xlog_allocate_entry_tpdpage env record s = .ok (some b) t) :
    refBlk record 0 = some b := by
  cases hr0 : record.blocks 0 with
  | none => simp [tpdpage_noref env record s hr0] at h
  | some r =>
    rw [refBlk_some record 0 r hr0]
    by_cases hf : isInitPage env record
    · rw [tpdpage_init env record s r hf hr0] at h
      exact (add_buffer env record _ _ _ _ h).symm
    · rcases read_cases env record 0 false s with
        ⟨hr, _⟩ | ⟨ref, img, hr, hi, _⟩ | ⟨ref, hr, hi, hp, _⟩ | ⟨ref, q, hr, hi, hp, hl, _⟩ |
        ⟨ref, q, hr, hi, hp, hl, _⟩
      · simp [hr0] at hr
      · rw [hr0] at hr
        cases hr
        rw [tpdpage_restored env record s r img hf hr0 hi] at h
        cases h
        rfl
      · rw [hr0] at hr
        cases hr
        rw [tpdpage_notfound env record s r hf hr0 hi hp] at h
        cases h
      · rw [hr0] at hr
        cases hr
        rw [tpdpage_done env record s r q hf hr0 hi hp hl] at h
        cases h
        rfl
      · rw [hr0] at hr
        cases hr
        rw [tpdpage_needs_redo env record s r q hf hr0 hi hp hl] at h
        exact (add_buffer env record _ _ _ _ h).symm

theorem clear_restored (env : Env C) (record : XLogReaderState C) (s : Pages C)
    (ref : BlockRef C) (img : C) (hr : record.blocks 0 = some ref) (hi : ref.image = some img) :
    tpd_xlog_clear_location env record s
      = .ok () (setPage s ref.blkno
          (RestoreBlockImage img record.EndRecPtr ((s ref.blkno).getD (zeroPage env)))) := by
  simp [tpd_xlog_clear_location, XLogReadBufferForRedo,
    read_image env record 0 false s ref img hr hi]

theorem clear_needs_redo (env : Env C) (record : XLogReaderState C) (s : Pages C)
    (ref : BlockRef C) (p : Page C) (hr : record.blocks 0 = some ref) (hi : ref.image = none)
    (hp : s ref.blkno = some p) (hl : p.lsn < record.EndRecPtr) :
    tpd_xlog_clear_location env record s
      = .ok () (setPage s ref.blkno { p with tpd_location := none, lsn := record.EndRecPtr }) := by
  simp [tpd_xlog_clear_location, XLogReadBufferForRedo,
    read_needs_redo env record 0 false s ref p hr hi hp hl, modifyPage_some s ref.blkno p hp,
    modifyPage_setPage, PageSetLSN, ClearTPDLocation]

theorem clear_done (env : Env C) (record : XLogReaderState C) (s : Pages C)
    (ref : BlockRef C) (p : Page C) (hr : record.blocks 0 = some ref) (hi : ref.image = none)
    (hp : s ref.blkno = some p) (hl : record.EndRecPtr ≤ p.lsn) :
    tpd_xlog_clear_location env record s = .ok () s := by
  simp [tpd_xlog_clear_location, XLogReadBufferForRedo,
    read_done env record 0 false s ref p hr hi hp hl]

theorem clear_notfound (env : Env C) (record : XLogReaderState C) (s : Pages C)
    (ref : BlockRef C) (hr : record.blocks 0 = some ref) (hi : ref.image = none)
    (hp : s ref.blkno = none) :
    tpd_xlog_clear_location env record s = .ok () s := by
  simp [tpd_xlog_clear_location, XLogReadBufferForRedo,
    read_notfound env record 0 false s ref hr hi hp]

theorem clear_noref (env : Env C) (record : XLogReaderState C) (s : Pages C)
    (hr : record.blocks 0 = none) :
    tpd_xlog_clear_location env record s = .fatal (.failed_to_locate_backup_block 0) s := by
  simp [tpd_xlog_clear_location, XLogReadBufferForRedo, read_noref, hr]

theorem refBlk_eq (record : XLogReaderState C) (block_id : Nat) (ref : BlockRef C)
    (b : BlockNumber) (hr : record.blocks block_id = some ref)
    (hb : refBlk record block_id = some b) : b = ref.blkno := by
  rw [refBlk_some record block_id ref hr] at hb
  exact (Option.some.inj hb).symm

/-- What the two data-page paths do with the back-reference, for every
record.  Both are guarded by `== BLK_NEEDS_REDO` alone: when the data page is
`BLK_RESTORED` the handlers do not touch the trailer after the image was put
in place, and when it is `BLK_NEEDS_REDO` the back-reference is (block number
of page 0, the record's offset) after a completed allocate-entry redo and
absent after clear-location redo.  In allocate-entry redo the data page is
named by block 1 only. -/
theorem data_page_backref_paths (env : Env C) (record : XLogReaderState C) (s : Pages C) :
    (∀ b1, refBlk record 1 = some b1 → redoAction env record 1 s = some .BLK_RESTORED →
      refBlk record 0 ≠ some b1 → refBlk record 2 ≠ some b1 → refBlk record 3 ≠ some b1 →
      (((tpd_xlog_allocate_entry env record s).pages b1).getD (zeroPage env)).tpd_location
        = ((s b1).getD (zeroPage env)).tpd_location) ∧
    (∀ b, refBlk record 0 = some b → redoAction env record 0 s = some .BLK_RESTORED →
      (((tpd_xlog_clear_location env record s).pages b).getD (zeroPage env)).tpd_location
        = ((s b).getD (zeroPage env)).tpd_location) ∧
    (∀ b0 b1, refBlk record 0 = some b0 → refBlk record 1 = some b1 →
      redoAction env record 1 s = some .BLK_NEEDS_REDO →
      refBlk record 0 ≠ some b1 → refBlk record 2 ≠ some b1 → refBlk record 3 ≠ some b1 →
      (tpd_xlog_allocate_entry env record s).isOk = true →
      ((tpd_xlog_allocate_entry env record s).pages b1).map (fun q => q.tpd_location)
        = some (some (b0, record.xlrec.offnum))) ∧
    (∀ b, refBlk record 0 = some b → redoAction env record 0 s = some .BLK_NEEDS_REDO →
      ((tpd_xlog_clear_location env record s).pages b).map (fun q => q.tpd_location)
        = some none) := by
  refine ⟨?_, ?_, ?_, ?_⟩
  · intro b1 hb1 hd h0 h2 h3
    obtain ⟨ref, img, hr, hi⟩ := redoAction_restored env record 1 s hd
    have hbe := refBlk_eq record 1 ref b1 hr hb1
    subst hbe
    have e0 := tpdpage_frame env record s ref.blkno h0
    cases ha : tpd_xlog_allocate_entry_tpdpage env record s with
    | fatal w t =>
      rw [ha] at e0
      rw [allocate_of_tpd_fatal env record s t w ha]
      simp only [Outcome.pages] at e0 ⊢
      rw [e0]
    | ok buf t =>
      rw [ha] at e0
      simp only [Outcome.pages] at e0
      rw [allocate_of_heap_ok env record s t _ buf ()  ha
        (heappage_restored env record buf t ref img hr hi),
        metapage_frame env record _ _ h2 h3, setPage_same, e0]
      rfl
  · intro b hb hd
    obtain ⟨ref, img, hr, hi⟩ := redoAction_restored env record 0 s hd
    have hbe := refBlk_eq record 0 ref b hr hb
    subst hbe
    rw [clear_restored env record s ref img hr hi]
    simp [Outcome.pages, RestoreBlockImage]
  · intro b0 b1 hb0 hb1 hd h0 h2 h3 hok
    obtain ⟨ref, p, hr, hi, hp, hl⟩ := redoAction_needs_redo env record 1 s hd
    have hbe := refBlk_eq record 1 ref b1 hr hb1
    subst hbe
    obtain ⟨buf, t, t1, ha, hb, heq⟩ := allocate_ok_inv env record s hok
    have ht : t ref.blkno = some p := by
      rw [tpdpage_pages_of_ok env record s t buf _ h0 ha, hp]
    cases buf with
    | none =>
      rw [heappage_needs_redo_invalid env record t ref p hr hi ht hl] at hb
      cases hb
    | some b =>
      have hbb : refBlk record 0 = some b := tpdpage_buffer env record s t b ha
      rw [hb0] at hbb
      cases hbb
      rw [heappage_needs_redo env record b0 t ref p hr hi ht hl] at hb
      cases hb
      rw [heq, metapage_frame env record _ _ h2 h3, setPage_same]
      rfl
  · intro b hb hd
    obtain ⟨ref, p, hr, hi, hp, hl⟩ := redoAction_needs_redo env record 0 s hd
    have hbe := refBlk_eq record 0 ref b hr hb
    subst hbe
    rw [clear_needs_redo env record s ref p hr hi hp hl]
    simp [Outcome.pages]

/-- C4 fails on the code: the record carries full-page images for directory
page 5 and for data page 6, so both are `BLK_RESTORED`.  The block-0 path
writes its trailer field again after the image (prev link 3 of the record,
where the page held 7); the block-1 path does not: after the completed handler
data page 6 still has the back-reference (9, 9) it held before, not the logged
(5, 2).  Likewise clear-location redo with an image for page 6 leaves (9, 9)
and not "absent".  In both cases the entry area is the image and the page is
stamped with the record's position 20. -/
theorem backref_stale_after_image :
    redoAction sampleEnv allocImagesRecord 0 samplePages = some .BLK_RESTORED ∧
    redoAction sampleEnv allocImagesRecord 1 samplePages = some .BLK_RESTORED ∧
    (tpd_xlog_allocate_entry sampleEnv allocImagesRecord samplePages).isOk = true ∧
    ((tpd_xlog_allocate_entry sampleEnv allocImagesRecord samplePages).pages 5).map
      (fun q => (q.area, q.tpd_prevblkno, q.lsn)) = some ([[1, 2], [7]], 3, 20) ∧
    ((tpd_xlog_allocate_entry sampleEnv allocImagesRecord samplePages).pages 6).map
      (fun q => (q.area, q.tpd_location, q.lsn)) = some ([[4]], some (9, 9), 20) ∧
    ((tpd_xlog_allocate_entry sampleEnv allocImagesRecord samplePages).pages 6).map
      (fun q => q.tpd_location)
      ≠ (refBlk allocImagesRecord 0).map
          (fun b0 => some (b0, allocImagesRecord.xlrec.offnum)) ∧
    redoAction sampleEnv clearImageRecord 0 samplePages = some .BLK_RESTORED ∧
    ((tpd_xlog_clear_location sampleEnv clearImageRecord samplePages).pages 6).map
      (fun q => (q.area, q.tpd_location, q.lsn)) = some ([[4]], some (9, 9), 20) ∧
    ((tpd_xlog_clear_location sampleEnv clearImageRecord samplePages).pages 6).map
      (fun q => q.tpd_location) ≠ some none := by
  refine ⟨?_, ?_, ?_, ?_, ?_, ?_, ?_, ?_, ?_⟩ <;> decide

/-! ## C5: a skipped page is left untouched -/

theorem clean_frame (env : Env C) (record : XLogReaderState C) (s : Pages C) (x : BlockNumber)
    (hx : refBlk record 0 ≠ some x) : (tpd_xlog_clean env record s).pages x = s x := by
  rcases read_cases env record 0 true s with
    ⟨_, h⟩ | ⟨ref, img, hr, hi, h⟩ | ⟨ref, hr, hi, hp, h⟩ | ⟨ref, q, hr, hi, hp, hl, h⟩ |
    ⟨ref, q, hr, hi, hp, hl, h⟩
  · simp [tpd_xlog_clean, h, Outcome.pages]
  · have hb : x ≠ ref.blkno := fun e => hx (by simp [refBlk, hr, e])
    simp [tpd_xlog_clean, h, Outcome.pages, setPage_other, hb]
  · simp [tpd_xlog_clean, h, Outcome.pages]
  · simp [tpd_xlog_clean, h, Outcome.pages]
  · have hb : x ≠ ref.blkno := fun e => hx (by simp [refBlk, hr, e])
    simp [tpd_xlog_clean, h, Outcome.pages, modifyPage_some s ref.blkno q hp,
      modifyPage_setPage, setPage_other, hb]

theorem clean_done (env : Env C) (record : XLogReaderState C) (s : Pages C)
    (ref : BlockRef C) (p : Page C) (hr : record.blocks 0 = some ref) (hi : ref.image = none)
    (hp : s ref.blkno = some p) (hl : record.EndRecPtr ≤ p.lsn) :
    tpd_xlog_clean env record s = .ok () s := by
  simp [tpd_xlog_clean, read_done env record 0 true s ref p hr hi hp hl]

theorem clear_frame (env : Env C) (record : XLogReaderState C) (s : Pages C) (x : BlockNumber)
    (hx : refBlk record 0 ≠ some x) : (tpd_xlog_clear_location env record s).pages x = s x := by
  rcases read_cases env record 0 false s with
    ⟨hr, _⟩ | ⟨ref, img, hr, hi, _⟩ | ⟨ref, hr, hi, hp, _⟩ | ⟨ref, q, hr, hi, hp, hl, _⟩ |
    ⟨ref, q, hr, hi, hp, hl, _⟩
  · simp [clear_noref env record s hr, Outcome.pages]
  · have hb : x ≠ ref.blkno := fun e => hx (by simp [refBlk, hr, e])
    simp [clear_restored env record s ref img hr hi, Outcome.pages, setPage_other, hb]
  · simp [clear_notfound env record s ref hr hi hp, Outcome.pages]
  · simp [clear_done env record s ref q hr hi hp hl, Outcome.pages]
  · have hb : x ≠ ref.blkno := fun e => hx (by simp [refBlk, hr, e])
    simp [clear_needs_redo env record s ref q hr hi hp hl, Outcome.pages, setPage_other, hb]

/-- Allocate-entry redo leaves a page with decision `BLK_DONE` as it was. -/
theorem allocate_entry_skip (env : Env C) (record : XLogReaderState C) (s : Pages C)
    (k : Nat) (b : BlockNumber) (hk : refBlk record k = some b)
    (hd : redoAction env record k s = some .BLK_DONE)
    (hone : ∀ j, j ≠ k → refBlk record j ≠ some b)
    (hk2 : k ≠ 2) (hk0 : k = 0 → ¬ isInitPage env record) :
    (tpd_xlog_allocate_entry env record s).pages b = s b := by
  obtain ⟨ref, p, hr, hi, hp, hl⟩ := redoAction_done env record k s hd
  have hbe := refBlk_eq record k ref b hr hk
  subst hbe
  by_cases h0 : k = 0
  · subst h0
    rw [allocate_pages_eq_tpdpage env record s _ (hone 1 (by decide)) (hone 2 (by decide))
      (hone 3 (by decide)), tpdpage_done env record s ref p (hk0 rfl) hr hi hp hl]
    rfl
  · by_cases h1 : k = 1
    · subst h1
      have e0 := tpdpage_frame env record s ref.blkno (hone 0 (by decide))
      cases ha : tpd_xlog_allocate_entry_tpdpage env record s with
      | fatal w t =>
        rw [ha] at e0
        rw [allocate_of_tpd_fatal env record s t w ha]
        exact e0
      | ok buf t =>
        rw [ha] at e0
        simp only [Outcome.pages] at e0
        rw [allocate_of_heap_ok env record s t t buf () ha
          (heappage_done env record buf t ref p hr hi (by rw [e0, hp]) hl),
          metapage_frame env record t _ (hone 2 (by decide)) (hone 3 (by decide)), e0]
    · by_cases h3 : k = 3
      · subst h3
        have e0 := tpdpage_frame env record s ref.blkno (hone 0 (by decide))
        cases ha : tpd_xlog_allocate_entry_tpdpage env record s with
        | fatal w t =>
          rw [ha] at e0
          rw [allocate_of_tpd_fatal env record s t w ha]
          exact e0
        | ok buf t =>
          rw [ha] at e0
          have e1 := heappage_frame env record buf t ref.blkno (hone 1 (by decide))
          cases hb : tpd_xlog_allocate_entry_heappage env record buf t with
          | fatal w t1 =>
            rw [hb] at e1
            rw [allocate_of_heap_fatal env record s t t1 buf w ha hb]
            exact e1.trans e0
          | ok u t1 =>
            rw [hb] at e1
            simp only [Outcome.pages] at e0 e1
            have e : t1 ref.blkno = s ref.blkno := e1.trans e0
            rw [allocate_of_heap_ok env record s t t1 buf u ha hb]
            cases hr2 : record.blocks 2 with
            | none =>
              rw [metapage_noref env record t1 hr2]
              exact e
            | some r2 =>
              have hne : ref.blkno ≠ r2.blkno := fun e' =>
                hone 2 (by decide) (by rw [refBlk_some record 2 r2 hr2, e'])
              rw [metapage_ref env record t1 r2 hr2]
              split
              · simp only [Outcome.pages]
                rw [setPage_other _ _ _ _ hne, e]
              · split
                · simp only [Outcome.pages]
                  rw [setPage_other _ _ _ _ hne, e]
                · rw [lastused_done env record _ ref p hr hi
                    (by rw [setPage_other _ _ _ _ hne, e, hp]) hl]
                  simp only [Outcome.pages]
                  rw [setPage_other _ _ _ _ hne, e]
      · exact allocate_entry_frame env record s _ (hone 0 (Ne.symm h0)) (hone 1 (Ne.symm h1))
          (hone 2 (Ne.symm hk2)) (hone 3 (Ne.symm h3))

/-- C5: Skip leaves a page untouched.  For a record and a block id `k` that
goes through the Redo Decision Function — any block of a clean or
clear-location record, and for an allocate-entry record any block but block 2
and but block 0 of an init-page record — if the decision on the page is
`BLK_DONE` (no image, stored log position at or after the record's) and the
record names the page under that id only, then after `tpd_redo` the page is
exactly the page it was: entry area, trailer links, back-reference and stored
log position. -/
theorem skip_leaves_page_untouched (env : Env C) (record : XLogReaderState C) (s : Pages C)
    (k : Nat) (b : BlockNumber) (hk : refBlk record k = some b)
    (hd : redoAction env record k s = some .BLK_DONE)
    (hone : ∀ j, j ≠ k → refBlk record j ≠ some b)
    (hgov : opCode env record = env.XLOG_ALLOCATE_TPD_ENTRY →
      k ≠ 2 ∧ (k = 0 → ¬ isInitPage env record)) :
    (tpd_redo env record s).pages b = s b := by
  unfold tpd_redo
  by_cases ha : maskedInfo env record &&& env.XLOG_TPD_OPMASK = env.XLOG_ALLOCATE_TPD_ENTRY
  · simp only [ha, if_true]
    exact allocate_entry_skip env record s k b hk hd hone (hgov ha).1 (hgov ha).2
  · simp only [ha, if_false]
    obtain ⟨ref, p, hr, hi, hp, hl⟩ := redoAction_done env record k s hd
    have hbe := refBlk_eq record k ref b hr hk
    subst hbe
    by_cases hc : maskedInfo env record &&& env.XLOG_TPD_OPMASK = env.XLOG_TPD_CLEAN
    · simp only [hc, if_true]
      by_cases h0 : k = 0
      · subst h0
        rw [clean_done env record s ref p hr hi hp hl]
        rfl
      · exact clean_frame env record s _ (hone 0 (Ne.symm h0))
    · simp only [hc, if_false]
      by_cases hl' : maskedInfo env record &&& env.XLOG_TPD_OPMASK = env.XLOG_TPD_CLEAR_LOCATION
      · simp only [hl', if_true]
        by_cases h0 : k = 0
        · subst h0
          rw [clear_done env record s ref p hr hi hp hl]
          rfl
        · exact clear_frame env record s _ (hone 0 (Ne.symm h0))
      · simp only [hl', if_false]
        rfl

/-- Witness for C5: the allocate-entry record at position 10 finds data page 6
already stamped with position 10 and leaves it as it was. -/
theorem skip_leaves_page_untouched_witness :
    (tpd_redo sampleEnv allocOldRecord samplePages).pages 6 = samplePages 6 :=
  skip_leaves_page_untouched sampleEnv allocOldRecord samplePages 1 6 (by decide) (by decide)
    (by
      intro j hj
      by_cases h0 : j = 0
      · subst h0; decide
      · simp [refBlk, allocOldRecord, sampleRecord, h0, hj])
    (by intro _; exact ⟨by decide, by decide⟩)

/-! ## C2: replaying a record twice -/

theorem add_ok_inv (env : Env C) (record : XLogReaderState C) (t t' : Pages C) (b : BlockNumber)
    (p : Page C) (buf : Buffer) (hp : t b = some p)
    (h : tpd_xlog_allocate_entry_add env record (some b) t = .ok buf t') :
    buf = some b ∧ t' = setPage t b (addedPage env record p) ∧
      ∀ u : Pages C, u b = some p →
        tpd_xlog_allocate_entry_add env record (some b) u
          = .ok (some b) (setPage u b (addedPage env record p)) := by
  rw [add_some env record t b p hp] at h
  by_cases h1 : addedOffset env record p = env.InvalidOffsetNumber
  · rw [if_pos h1] at h
    cases h
  · rw [if_neg h1] at h
    by_cases h2 : assertHolds env (decide (addedOffset env record p = record.xlrec.offnum)) = false
    · rw [if_pos h2] at h
      cases h
    · rw [if_neg h2] at h
      cases h
      refine ⟨rfl, rfl, ?_⟩
      intro u hu
      rw [add_some env record u b p hu, if_neg h1, if_neg h2]

theorem ok_of_isOk (o : Outcome C Unit) (h : o.isOk = true) : o = .ok () o.pages := by
  cases o with
  | ok v t => rfl
  | fatal w t => simp [Outcome.isOk] at h

theorem orElse_getD {β : Type} (a b : Option β) (x : β) :
    (b <|> a).getD x = b.getD (a.getD x) := by
  cases b <;> simp

theorem Patch.apply_merge (a b : Patch C) (p : Page C) :
    (a.merge b).apply p = b.apply (a.apply p) := by
  simp [Patch.apply, Patch.merge, orElse_getD]

theorem getD_getD {β : Type} (a : Option β) (x : β) : a.getD (a.getD x) = a.getD x := by
  cases a <;> simp

theorem Patch.apply_apply (a : Patch C) (p : Page C) : a.apply (a.apply p) = a.apply p := by
  simp [Patch.apply, getD_getD]

theorem Patch.apply_const (c p : Page C) : (Patch.const c).apply p = c := by
  simp [Patch.apply, Patch.const]

theorem runWriter_comp (env : Env C) (w₁ w₂ : Option (Patch C)) (x : Option (Page C)) :
    runWriter env (compWriter w₁ w₂) x = runWriter env w₂ (runWriter env w₁ x) := by
  cases w₁ <;> cases w₂ <;> simp [runWriter, compWriter, Patch.apply_merge]

theorem runWriter_idem (env : Env C) (w : Option (Patch C)) (x : Option (Page C)) :
    runWriter env w (runWriter env w x) = runWriter env w x := by
  cases w <;> simp [runWriter, Patch.apply_apply]

theorem runWriters_cons (env : Env C) (w : Option (Patch C)) (ws : List (Option (Patch C)))
    (x : Option (Page C)) :
    runWriters env (w :: ws) x = runWriters env ws (runWriter env w x) := rfl

theorem runWriters_append (env : Env C) (a b : List (Option (Patch C))) (x : Option (Page C)) :
    runWriters env (a ++ b) x = runWriters env b (runWriters env a x) := by
  simp [runWriters, List.foldl_append]

theorem runWriters_single (env : Env C) (ws : List (Option (Patch C))) :
    ∃ w, ∀ x, runWriters env ws x = runWriter env w x := by
  induction ws with
  | nil => exact ⟨none, fun x => rfl⟩
  | cons w rest ih =>
    obtain ⟨w', hw'⟩ := ih
    exact ⟨compWriter w w', fun x => by rw [runWriters_cons, hw', runWriter_comp]⟩

theorem runWriters_idem (env : Env C) (ws : List (Option (Patch C))) (x : Option (Page C)) :
    runWriters env ws (runWriters env ws x) = runWriters env ws x := by
  obtain ⟨w, hw⟩ := runWriters_single env ws
  rw [hw, hw, runWriter_idem]

theorem runWriters_none (env : Env C) (ws : List (Option (Patch C)))
    (h : ∀ w ∈ ws, w = none) (x : Option (Page C)) : runWriters env ws x = x := by
  induction ws generalizing x with
  | nil => rfl
  | cons w rest ih =>
    rw [runWriters_cons, h w (List.mem_cons_self _ _)]
    exact ih (fun w' hw' => h w' (List.mem_cons_of_mem _ hw')) x

theorem updAt_same (s : Pages C) (b : BlockNumber) (v : Option (Page C)) : updAt s b v b = v := by
  simp [updAt]

theorem updAt_other (s : Pages C) (b x : BlockNumber) (v : Option (Page C)) (h : x ≠ b) :
    updAt s b v x = s x := by
  simp [updAt, h]

theorem again_at (env : Env C) (σ : AStep C) (y : Pages C) (B : BlockNumber) :
    σ.again env y B = runWriter env (if σ.blk = B then σ.w else none) (y B) := by
  by_cases h : σ.blk = B
  · subst h
    simp [AStep.again, updAt_same]
  · have h' : B ≠ σ.blk := fun e => h e.symm
    simp [AStep.again, updAt_other, h, h', runWriter]

theorem againAll_at (env : Env C) (steps : List (AStep C)) (y : Pages C) (B : BlockNumber) :
    againAll env steps y B = runWriters env (writersAt B steps) (y B) := by
  induction steps generalizing y with
  | nil => rfl
  | cons σ rest ih =>
    show againAll env rest (σ.again env y) B = _
    rw [ih, again_at]
    rfl

theorem settled_runWriter_some (env : Env C) (L : XLogRecPtr) (π : Patch C)
    (h : π.lsn = some L) (x : Option (Page C)) : settled L (runWriter env (some π) x) := by
  intro p hp
  simp only [runWriter, Option.some.injEq] at hp
  subst hp
  simp [Patch.apply, h]

theorem ran_at (env : Env C) (L : XLogRecPtr) (σ : AStep C) (x x' : Pages C) (B : BlockNumber)
    (hgood : ∀ π, σ.w = some π → π.lsn = some L) (h : σ.ran env L x x') :
    (x' B = runWriter env (if σ.blk = B then σ.w else none) (x B) ∧
        ((if σ.blk = B then σ.w else none) = none ∨ settled L (x' B))) ∨
      ((if σ.blk = B then σ.w else none) = none ∧ ¬ settled L (x B) ∧ settled L (x' B)) := by
  unfold AStep.ran at h
  cases hw : σ.w with
  | some π =>
    rw [hw] at h
    simp only at h
    left
    rw [h, again_at, hw]
    refine ⟨rfl, ?_⟩
    by_cases hb : σ.blk = B
    · right
      simp only [hb, if_true]
      exact settled_runWriter_some env L π (hgood π hw) _
    · left
      simp [hb]
  | none =>
    rw [hw] at h
    simp only at h
    obtain ⟨hs, hoff, hsame⟩ := h
    by_cases hb : σ.blk = B
    · subst hb
      by_cases hx : settled L (x σ.blk)
      · left
        rw [hsame hx]
        exact ⟨by simp [runWriter], Or.inl (by simp)⟩
      · right
        exact ⟨by simp, hx, hs⟩
    · left
      have hb' : B ≠ σ.blk := fun e => hb e.symm
      rw [hoff B hb']
      exact ⟨by simp [hb, runWriter], Or.inl (by simp [hb])⟩

theorem ranChain_at (env : Env C) (L : XLogRecPtr) (B : BlockNumber)
    (steps : List (AStep C)) :
    ∀ (s d : Pages C) (pre : List (Option (Patch C))) (z : Option (Page C)),
      Stamping L steps → RanChain env L steps s d →
      s B = runWriters env pre z → (¬ settled L (s B) → ∀ w ∈ pre, w = none) →
      ∃ z', d B = runWriters env (pre ++ writersAt B steps) z' := by
  induction steps with
  | nil =>
    intro s d pre z _ h hs _
    cases h
    exact ⟨z, by simpa [writersAt] using hs⟩
  | cons σ rest ih =>
    intro s d pre z hgood h hs hun
    obtain ⟨x', hran, hrest⟩ := h
    have hgood' : Stamping L rest := fun τ hτ => hgood τ (List.mem_cons_of_mem _ hτ)
    have hσ := hgood σ (List.mem_cons_self _ _)
    have key : ∃ z'', x' B = runWriters env (pre ++ [if σ.blk = B then σ.w else none]) z'' ∧
        (¬ settled L (x' B) → ∀ w ∈ pre ++ [if σ.blk = B then σ.w else none], w = none) := by
      rcases ran_at env L σ s x' B hσ hran with ⟨he, hw⟩ | ⟨hw, hns, hset⟩
      · refine ⟨z, ?_, ?_⟩
        · rw [runWriters_append, ← hs, he]
          rfl
        · intro hnot w hwmem
          rcases hw with hw | hw
          · rcases List.mem_append.mp hwmem with hm | hm
            · apply hun _ w hm
              intro hsB
              apply hnot
              rw [he, hw]
              exact hsB
            · rw [List.mem_singleton.mp hm, hw]
          · exact absurd hw hnot
      · refine ⟨x' B, ?_, fun hnot => absurd hset hnot⟩
        rw [runWriters_none]
        intro w hwmem
        rcases List.mem_append.mp hwmem with hm | hm
        · exact hun hns w hm
        · rw [List.mem_singleton.mp hm, hw]
    obtain ⟨z'', hz, hun'⟩ := key
    obtain ⟨z', hz'⟩ := ih x' d _ z'' hgood' hrest hz hun'
    refine ⟨z', ?_⟩
    rw [hz']
    simp [writersAt, List.append_assoc]

/-- Replaying the steps on the page cache they produced changes nothing. -/
theorem ranChain_again (env : Env C) (L : XLogRecPtr) (steps : List (AStep C)) (s d : Pages C)
    (hgood : Stamping L steps) (h : RanChain env L steps s d) : againAll env steps d = d := by
  funext B
  obtain ⟨z', hz'⟩ := ranChain_at env L B steps s d [] (s B) hgood h rfl
    (fun _ w hw => by cases hw)
  simp only [List.nil_append] at hz'
  rw [againAll_at, hz', runWriters_idem]

theorem settled_again (env : Env C) (L : XLogRecPtr) (σ : AStep C) (y : Pages C)
    (b : BlockNumber) (hgood : ∀ π, σ.w = some π → π.lsn = some L)
    (h : settled L (y b)) : settled L (σ.again env y b) := by
  rw [again_at]
  by_cases hb : σ.blk = b
  · simp only [hb, if_true]
    cases hw : σ.w with
    | none => exact h
    | some π => exact settled_runWriter_some env L π (hgood π hw) _
  · simp only [hb, if_false]
    exact h

theorem settled_ran (env : Env C) (L : XLogRecPtr) (σ : AStep C) (x x' : Pages C)
    (b : BlockNumber) (hgood : ∀ π, σ.w = some π → π.lsn = some L)
    (hran : σ.ran env L x x') (h : settled L (x b)) : settled L (x' b) := by
  rcases ran_at env L σ x x' b hgood hran with ⟨he, hw⟩ | ⟨_, _, hset⟩
  · rcases hw with hw | hw
    · rw [he, hw]
      exact h
    · exact hw
  · exact hset

theorem settled_ranChain (env : Env C) (L : XLogRecPtr) (steps : List (AStep C))
    (b : BlockNumber) :
    ∀ (s d : Pages C), Stamping L steps → RanChain env L steps s d →
      settled L (s b) → settled L (d b) := by
  induction steps with
  | nil =>
    intro s d _ h hs
    cases h
    exact hs
  | cons σ rest ih =>
    intro s d hgood h hs
    obtain ⟨x', hran, hrest⟩ := h
    exact ih x' d (fun τ hτ => hgood τ (List.mem_cons_of_mem _ hτ)) hrest
      (settled_ran env L σ s x' b (hgood σ (List.mem_cons_self _ _)) hran hs)

theorem ran_settles (env : Env C) (L : XLogRecPtr) (σ : AStep C) (x x' : Pages C)
    (hw : σ.w = none) (hran : σ.ran env L x x') : settled L (x' σ.blk) := by
  unfold AStep.ran at hran
  rw [hw] at hran
  exact hran.1

/-- In the second replay every guarded step finds its page settled. -/
theorem ranChain_againSettled (env : Env C) (L : XLogRecPtr) (steps : List (AStep C)) :
    ∀ (s d y : Pages C), Stamping L steps → RanChain env L steps s d →
      (∀ b, settled L (d b) → settled L (y b)) → AgainSettled env L steps y := by
  induction steps with
  | nil =>
    intro _ _ _ _ _ _
    trivial
  | cons σ rest ih =>
    intro s d y hgood h hy
    obtain ⟨x', hran, hrest⟩ := h
    have hgood' : Stamping L rest := fun τ hτ => hgood τ (List.mem_cons_of_mem _ hτ)
    have hσ := hgood σ (List.mem_cons_self _ _)
    refine ⟨?_, ?_⟩
    · intro hw
      exact hy _ (settled_ranChain env L rest σ.blk x' d hgood' hrest
        (ran_settles env L σ s x' hw hran))
    · exact ih x' d _ hgood' hrest (fun b hb => settled_again env L σ y b hσ (hy b hb))

theorem setPage_eq_updAt (s : Pages C) (b : BlockNumber) (p : Page C) :
    setPage s b p = updAt s b (some p) := rfl

theorem updAt_self (s : Pages C) (b : BlockNumber) : updAt s b (s b) = s := by
  funext x
  by_cases h : x = b
  · subst h
    simp [updAt]
  · simp [updAt, h]

theorem again_none (env : Env C) (σ : AStep C) (y : Pages C) (h : σ.w = none) :
    σ.again env y = y := by
  simp [AStep.again, h, runWriter, updAt_self]

theorem settled_none (L : XLogRecPtr) : settled L (none : Option (Page C)) := by
  intro p hp
  cases hp

theorem settled_some (L : XLogRecPtr) (p : Page C) : settled L (some p) ↔ L ≤ p.lsn := by
  constructor
  · intro h
    exact h p rfl
  · intro h q hq
    cases hq
    exact h

/-- Either a settled page is absent or it is stamped at or after `L`. -/
theorem settled_cases (L : XLogRecPtr) (x : Option (Page C)) (h : settled L x) :
    x = none ∨ ∃ p, x = some p ∧ L ≤ p.lsn := by
  cases x with
  | none => exact Or.inl rfl
  | some p => exact Or.inr ⟨p, rfl, h p rfl⟩

theorem tpdStep_ran (env : Env C) (record : XLogReaderState C) (s t : Pages C) (buf : Buffer)
    (r : BlockRef C) (hr0 : record.blocks 0 = some r)
    (ha : tpd_xlog_allocate_entry_tpdpage env record s = .ok buf t) :
    (tpdStep env record r).ran env record.EndRecPtr s t := by
  unfold AStep.ran
  by_cases hf : isInitPage env record
  · rw [tpdpage_init env record s r hf hr0] at ha
    obtain ⟨_, ht, _⟩ := add_ok_inv env record _ _ _ _ _ (setPage_same _ _ _) ha
    simp only [tpdStep, hf, if_true]
    rw [ht, setPage_setPage]
    simp [AStep.again, runWriter, Patch.apply_const, setPage_eq_updAt]
  · rcases read_cases env record 0 false s with
      ⟨hr, _⟩ | ⟨ref, img, hr, hi, _⟩ | ⟨ref, hr, hi, hp, _⟩ | ⟨ref, q, hr, hi, hp, hl, _⟩ |
      ⟨ref, q, hr, hi, hp, hl, _⟩
    · simp [hr0] at hr
    · rw [hr0] at hr
      cases hr
      rw [tpdpage_restored env record s r img hf hr0 hi] at ha
      cases ha
      simp only [tpdStep, hf, if_false, hi, Option.map_some']
      simp [AStep.again, runWriter, setPage_eq_updAt, Patch.apply, restorePatch,
        RestoreBlockImage]
    · rw [hr0] at hr
      cases hr
      rw [tpdpage_notfound env record s r hf hr0 hi hp] at ha
      cases ha
      simp only [tpdStep, hf, if_false, hi, Option.map_none']
      exact ⟨by rw [hp]; exact settled_none _, fun _ _ => trivial, fun _ => trivial⟩
    · rw [hr0] at hr
      cases hr
      rw [tpdpage_done env record s r q hf hr0 hi hp hl] at ha
      cases ha
      simp only [tpdStep, hf, if_false, hi, Option.map_none']
      exact ⟨by rw [hp]; exact (settled_some _ _).mpr hl, fun _ _ => trivial, fun _ => trivial⟩
    · rw [hr0] at hr
      cases hr
      rw [tpdpage_needs_redo env record s r q hf hr0 hi hp hl] at ha
      obtain ⟨_, ht, _⟩ := add_ok_inv env record _ _ _ _ _ hp ha
      simp only [tpdStep, hf, if_false, hi, Option.map_none']
      refine ⟨?_, ?_, ?_⟩
      · rw [ht, setPage_same]
        exact (settled_some _ _).mpr (Nat.le_refl _)
      · intro b hb
        rw [ht, setPage_other _ _ _ _ hb]
      · intro hs
        rw [hp] at hs
        exact absurd ((settled_some _ _).mp hs) (Nat.not_le.mpr hl)

theorem tpdStep_again (env : Env C) (record : XLogReaderState C) (s t y : Pages C)
    (buf : Buffer) (r : BlockRef C) (hr0 : record.blocks 0 = some r)
    (ha : tpd_xlog_allocate_entry_tpdpage env record s = .ok buf t)
    (hy : (tpdStep env record r).w = none → settled record.EndRecPtr (y r.blkno)) :
    ∃ buf', tpd_xlog_allocate_entry_tpdpage env record y
      = .ok buf' ((tpdStep env record r).again env y) := by
  by_cases hf : isInitPage env record
  · rw [tpdpage_init env record s r hf hr0] at ha
    obtain ⟨_, _, hagain⟩ := add_ok_inv env record _ _ _ _ _ (setPage_same _ _ _) ha
    refine ⟨some r.blkno, ?_⟩
    rw [tpdpage_init env record y r hf hr0, hagain _ (setPage_same _ _ _), setPage_setPage]
    simp [AStep.again, tpdStep, hf, runWriter, Patch.apply_const, setPage_eq_updAt]
  · cases hi : r.image with
    | some img =>
      refine ⟨some r.blkno, ?_⟩
      rw [tpdpage_restored env record y r img hf hr0 hi]
      simp [AStep.again, tpdStep, hf, hi, runWriter, setPage_eq_updAt, Patch.apply, restorePatch,
        RestoreBlockImage]
    | none =>
      have hw : (tpdStep env record r).w = none := by simp [tpdStep, hf, hi]
      rw [again_none env _ y hw]
      rcases settled_cases _ _ (hy hw) with hn | ⟨p, hp, hl⟩
      · exact ⟨none, tpdpage_notfound env record y r hf hr0 hi hn⟩
      · exact ⟨some r.blkno, tpdpage_done env record y r p hf hr0 hi hp hl⟩

theorem heapStep_ran (env : Env C) (record : XLogReaderState C) (t t1 : Pages C) (buf : Buffer)
    (r : BlockRef C) (hr1 : record.blocks 1 = some r)
    (hb : tpd_xlog_allocate_entry_heappage env record buf t = .ok () t1) :
    (heapStep record r).ran env record.EndRecPtr t t1 := by
  unfold AStep.ran
  rcases read_cases env record 1 false t with
    ⟨hr, _⟩ | ⟨ref, img, hr, hi, _⟩ | ⟨ref, hr, hi, hp, _⟩ | ⟨ref, q, hr, hi, hp, hl, _⟩ |
    ⟨ref, q, hr, hi, hp, hl, _⟩
  · simp [hr1] at hr
  · rw [hr1] at hr
    cases hr
    rw [heappage_restored env record buf t r img hr1 hi] at hb
    cases hb
    simp only [heapStep, hi, Option.map_some']
    simp [AStep.again, runWriter, setPage_eq_updAt, Patch.apply, restorePatch, RestoreBlockImage]
  · rw [hr1] at hr
    cases hr
    rw [heappage_notfound env record buf t r hr1 hi hp] at hb
    cases hb
    simp only [heapStep, hi, Option.map_none']
    exact ⟨by rw [hp]; exact settled_none _, fun _ _ => trivial, fun _ => trivial⟩
  · rw [hr1] at hr
    cases hr
    rw [heappage_done env record buf t r q hr1 hi hp hl] at hb
    cases hb
    simp only [heapStep, hi, Option.map_none']
    exact ⟨by rw [hp]; exact (settled_some _ _).mpr hl, fun _ _ => trivial, fun _ => trivial⟩
  · rw [hr1] at hr
    cases hr
    simp only [heapStep, hi, Option.map_none']
    cases buf with
    | none =>
      rw [heappage_needs_redo_invalid env record t r q hr1 hi hp hl] at hb
      cases hb
    | some b0 =>
      rw [heappage_needs_redo env record b0 t r q hr1 hi hp hl] at hb
      cases hb
      refine ⟨?_, ?_, ?_⟩
      · rw [setPage_same]
        exact (settled_some _ _).mpr (Nat.le_refl _)
      · intro b hb'
        rw [setPage_other _ _ _ _ hb']
      · intro hs
        rw [hp] at hs
        exact absurd ((settled_some _ _).mp hs) (Nat.not_le.mpr hl)

theorem heapStep_again (env : Env C) (record : XLogReaderState C) (y : Pages C) (buf : Buffer)
    (r : BlockRef C) (hr1 : record.blocks 1 = some r)
    (hy : (heapStep record r).w = none → settled record.EndRecPtr (y r.blkno)) :
    tpd_xlog_allocate_entry_heappage env record buf y
      = .ok () ((heapStep record r).again env y) := by
  cases hi : r.image with
  | some img =>
    rw [heappage_restored env record buf y r img hr1 hi]
    simp [AStep.again, heapStep, hi, runWriter, setPage_eq_updAt, Patch.apply, restorePatch,
      RestoreBlockImage]
  | none =>
    have hw : (heapStep record r).w = none := by simp [heapStep, hi]
    rw [again_none env _ y hw]
    rcases settled_cases _ _ (hy hw) with hn | ⟨p, hp, hl⟩
    · exact heappage_notfound env record buf y r hr1 hi hn
    · exact heappage_done env record buf y r p hr1 hi hp hl

theorem lastusedStep_ran (env : Env C) (record : XLogReaderState C) (t d : Pages C)
    (r : BlockRef C) (hr3 : record.blocks 3 = some r)
    (h : tpd_xlog_allocate_entry_lastused env record t = .ok () d) :
    (lastusedStep record r).ran env record.EndRecPtr t d := by
  unfold AStep.ran
  rcases read_cases env record 3 false t with
    ⟨hr, _⟩ | ⟨ref, img, hr, hi, _⟩ | ⟨ref, hr, hi, hp, _⟩ | ⟨ref, q, hr, hi, hp, hl, _⟩ |
    ⟨ref, q, hr, hi, hp, hl, _⟩
  · simp [hr3] at hr
  · rw [hr3] at hr
    cases hr
    rw [lastused_restored env record t r img hr3 hi] at h
    cases h
    simp only [lastusedStep, hi, Option.map_some']
    simp [AStep.again, runWriter, setPage_eq_updAt, Patch.apply, restorePatch, RestoreBlockImage]
  · rw [hr3] at hr
    cases hr
    rw [lastused_notfound env record t r hr3 hi hp] at h
    cases h
    simp only [lastusedStep, hi, Option.map_none']
    exact ⟨by rw [hp]; exact settled_none _, fun _ _ => trivial, fun _ => trivial⟩
  · rw [hr3] at hr
    cases hr
    rw [lastused_done env record t r q hr3 hi hp hl] at h
    cases h
    simp only [lastusedStep, hi, Option.map_none']
    exact ⟨by rw [hp]; exact (settled_some _ _).mpr hl, fun _ _ => trivial, fun _ => trivial⟩
  · rw [hr3] at hr
    cases hr
    rw [lastused_needs_redo env record t r q hr3 hi hp hl] at h
    cases h
    simp only [lastusedStep, hi, Option.map_none']
    refine ⟨?_, ?_, ?_⟩
    · rw [setPage_same]
      exact (settled_some _ _).mpr (Nat.le_refl _)
    · intro b hb'
      rw [setPage_other _ _ _ _ hb']
    · intro hs
      rw [hp] at hs
      exact absurd ((settled_some _ _).mp hs) (Nat.not_le.mpr hl)

theorem lastusedStep_again (env : Env C) (record : XLogReaderState C) (y : Pages C)
    (r : BlockRef C) (hr3 : record.blocks 3 = some r)
    (hy : (lastusedStep record r).w = none → settled record.EndRecPtr (y r.blkno)) :
    tpd_xlog_allocate_entry_lastused env record y
      = .ok () ((lastusedStep record r).again env y) := by
  cases hi : r.image with
  | some img =>
    rw [lastused_restored env record y r img hr3 hi]
    simp [AStep.again, lastusedStep, hi, runWriter, setPage_eq_updAt, Patch.apply, restorePatch,
      RestoreBlockImage]
  | none =>
    have hw : (lastusedStep record r).w = none := by simp [lastusedStep, hi]
    rw [again_none env _ y hw]
    rcases settled_cases _ _ (hy hw) with hn | ⟨p, hp, hl⟩
    · exact lastused_notfound env record y r hr3 hi hn
    · exact lastused_done env record y r p hr3 hi hp hl

/-- The assertions on the metadata payload do not depend on the page cache. -/
theorem metapage_any (env : Env C) (record : XLogReaderState C) (t : Pages C)
    (r2 : BlockRef C) (hr2 : record.blocks 2 = some r2)
    (hok : (tpd_xlog_allocate_entry_metapage env record t).isOk = true) (y : Pages C) :
    tpd_xlog_allocate_entry_metapage env record y
      = tpd_xlog_allocate_entry_lastused env record
          ((metaStep env record r2).again env y) := by
  have hagain : (metaStep env record r2).again env y
      = setPage y r2.blkno (metaPage env record r2) := by
    simp [AStep.again, metaStep, runWriter, Patch.apply_const, setPage_eq_updAt]
  rw [hagain, metapage_ref env record y r2 hr2]
  rw [metapage_ref env record t r2 hr2] at hok
  by_cases h1 : assertHolds env (decide (r2.data.length = env.SizeOfMetaData)) = false
  · rw [if_pos h1] at hok
    simp [Outcome.isOk] at hok
  · rw [if_neg h1] at hok ⊢
    by_cases h2 : assertHolds env (decide (r2.blkno = env.ZHEAP_METAPAGE)) = false
    · rw [if_pos h2] at hok
      simp [Outcome.isOk] at hok
    · rw [if_neg h2]

/-- Allocate-entry redo a second time: every compared page is settled, every
unconditional write lands on what it wrote before. -/
theorem allocate_entry_again (env : Env C) (record : XLogReaderState C) (s : Pages C)
    (hok : (tpd_xlog_allocate_entry env record s).isOk = true) :
    tpd_xlog_allocate_entry env record (tpd_xlog_allocate_entry env record s).pages
      = tpd_xlog_allocate_entry env record s := by
  obtain ⟨buf, t, t1, ha, hb, heq⟩ := allocate_ok_inv env record s hok
  have hmok : (tpd_xlog_allocate_entry_metapage env record t1).isOk = true := by
    rw [← heq]; exact hok
  have hm := ok_of_isOk _ hmok
  rw [heq]
  generalize hdd : (tpd_xlog_allocate_entry_metapage env record t1).pages = d at hm
  cases hr0 : record.blocks 0 with
  | none => simp [tpdpage_noref env record s hr0] at ha
  | some r0 =>
    cases hr1 : record.blocks 1 with
    | none => simp [heappage_noref env record buf t hr1] at hb
    | some r1 =>
      have h0 := tpdStep_ran env record s t buf r0 hr0 ha
      have h1 := heapStep_ran env record t t1 buf r1 hr1 hb
      have hst0 : ∀ π, (tpdStep env record r0).w = some π → π.lsn = some record.EndRecPtr := by
        intro π hπ
        unfold tpdStep at hπ
        by_cases hf : isInitPage env record
        · simp only [hf, if_true, Option.some.injEq] at hπ
          subst hπ
          rfl
        · simp only [hf, if_false] at hπ
          cases hi : r0.image with
          | none => simp [hi] at hπ
          | some img =>
            simp only [hi, Option.map_some', Option.some.injEq] at hπ
            subst hπ
            rfl
      have hst1 : ∀ π, (heapStep record r1).w = some π → π.lsn = some record.EndRecPtr := by
        intro π hπ
        unfold heapStep at hπ
        cases hi : r1.image with
        | none => simp [hi] at hπ
        | some img =>
          simp only [hi, Option.map_some', Option.some.injEq] at hπ
          subst hπ
          rfl
      have tail : ∃ steps : List (AStep C), Stamping record.EndRecPtr steps ∧
          RanChain env record.EndRecPtr steps t1 d ∧
          ∀ y, AgainSettled env record.EndRecPtr steps y →
            tpd_xlog_allocate_entry_metapage env record y = .ok () (againAll env steps y) := by
        cases hr2 : record.blocks 2 with
        | none =>
          rw [metapage_noref env record t1 hr2] at hm
          cases hm
          exact ⟨[], fun σ hσ => (by cases hσ), rfl, fun y _ => metapage_noref env record y hr2⟩
        | some r2 =>
          have hst2 : ∀ π, (metaStep env record r2).w = some π →
              π.lsn = some record.EndRecPtr := by
            intro π hπ
            simp only [metaStep, Option.some.injEq] at hπ
            subst hπ
            rfl
          have hmeta := metapage_any env record t1 r2 hr2 hmok
          have hlu := hmeta t1
          rw [hm] at hlu
          cases hr3 : record.blocks 3 with
          | none =>
            rw [lastused_noref env record _ hr3] at hlu
            cases hlu
            refine ⟨[metaStep env record r2], ?_, ⟨_, rfl, rfl⟩, ?_⟩
            · intro σ hσ
              rw [List.mem_singleton.mp hσ]
              exact hst2
            · intro y _
              rw [hmeta y, lastused_noref env record _ hr3]
              rfl
          | some r3 =>
            have hst3 : ∀ π, (lastusedStep record r3).w = some π →
                π.lsn = some record.EndRecPtr := by
              intro π hπ
              unfold lastusedStep at hπ
              cases hi : r3.image with
              | none => simp [hi] at hπ
              | some img =>
                simp only [hi, Option.map_some', Option.some.injEq] at hπ
                subst hπ
                rfl
            refine ⟨[metaStep env record r2, lastusedStep record r3], ?_,
              ⟨_, rfl, _, lastusedStep_ran env record _ d r3 hr3 hlu.symm, rfl⟩, ?_⟩
            · intro σ hσ
              rcases List.mem_cons.mp hσ with e | e
              · rw [e]
                exact hst2
              · rw [List.mem_singleton.mp e]
                exact hst3
            · intro y hy
              rw [hmeta y, lastusedStep_again env record _ r3 hr3 hy.2.1]
              rfl
      obtain ⟨steps, hstamp, hchain, hmeta⟩ := tail
      have hall : Stamping record.EndRecPtr
          (tpdStep env record r0 :: heapStep record r1 :: steps) := by
        intro σ hσ
        rcases List.mem_cons.mp hσ with e | e
        · rw [e]
          exact hst0
        · rcases List.mem_cons.mp e with e | e
          · rw [e]
            exact hst1
          · exact hstamp σ e
      have hrun : RanChain env record.EndRecPtr
          (tpdStep env record r0 :: heapStep record r1 :: steps) s d :=
        ⟨t, h0, t1, h1, hchain⟩
      have hfix := ranChain_again env record.EndRecPtr _ s d hall hrun
      have hset := ranChain_againSettled env record.EndRecPtr _ s d d hall hrun (fun _ h => h)
      obtain ⟨buf', ha'⟩ := tpdStep_again env record s t d buf r0 hr0 ha hset.1
      have hb' := heapStep_again env record ((tpdStep env record r0).again env d) buf' r1 hr1
        hset.2.1
      rw [allocate_of_heap_ok env record d _ _ buf' () ha' hb', hmeta _ hset.2.2, hm]
      exact congrArg _ hfix

theorem clean_again (env : Env C) (record : XLogReaderState C) (s : Pages C)
    (hok : (tpd_xlog_clean env record s).isOk = true) :
    tpd_xlog_clean env record (tpd_xlog_clean env record s).pages
      = tpd_xlog_clean env record s := by
  rcases read_cases env record 0 true s with
    ⟨_, h⟩ | ⟨ref, img, hr, hi, h⟩ | ⟨ref, hr, hi, hp, h⟩ | ⟨ref, q, hr, hi, hp, hl, h⟩ |
    ⟨ref, q, hr, hi, hp, hl, h⟩
  · simp [tpd_xlog_clean, h, Outcome.isOk] at hok
  · have e := (clean_restored env record s ref img hr hi)
    rw [e]
    simp only [Outcome.pages]
    rw [clean_restored env record _ ref img hr hi, setPage_same, setPage_setPage]
    rfl
  · have e : tpd_xlog_clean env record s = .ok () s := by simp [tpd_xlog_clean, h]
    rw [e]
    exact e
  · have e := clean_done env record s ref q hr hi hp hl
    rw [e]
    exact e
  · have e : tpd_xlog_clean env record s = .ok () (setPage s ref.blkno
        { q with area := env.TPDPagePruneExecute q.area (nowunused env ref.data),
                 lsn := record.EndRecPtr }) := by
      simp [tpd_xlog_clean, h, modifyPage_some s ref.blkno q hp, modifyPage_setPage,
        XLogRecGetBlockData, hr, PageSetLSN]
    rw [e]
    exact clean_done env record _ ref _ hr hi (setPage_same _ _ _) (Nat.le_refl _)

theorem clear_again (env : Env C) (record : XLogReaderState C) (s : Pages C)
    (hok : (tpd_xlog_clear_location env record s).isOk = true) :
    tpd_xlog_clear_location env record (tpd_xlog_clear_location env record s).pages
      = tpd_xlog_clear_location env record s := by
  rcases read_cases env record 0 false s with
    ⟨hr, _⟩ | ⟨ref, img, hr, hi, _⟩ | ⟨ref, hr, hi, hp, _⟩ | ⟨ref, q, hr, hi, hp, hl, _⟩ |
    ⟨ref, q, hr, hi, hp, hl, _⟩
  · simp [clear_noref env record s hr, Outcome.isOk] at hok
  · rw [clear_restored env record s ref img hr hi]
    simp only [Outcome.pages]
    rw [clear_restored env record _ ref img hr hi, setPage_same, setPage_setPage]
    rfl
  · rw [clear_notfound env record s ref hr hi hp]
    exact clear_notfound env record s ref hr hi hp
  · rw [clear_done env record s ref q hr hi hp hl]
    exact clear_done env record s ref q hr hi hp hl
  · rw [clear_needs_redo env record s ref q hr hi hp hl]
    exact clear_done env record _ ref _ hr hi (setPage_same _ _ _) (Nat.le_refl _)

/-- C2: replaying a record twice gives what replaying it once gives.  For
every record and every page cache on which `tpd_redo` completes, applying
`tpd_redo` again to the resulting page cache completes and leaves every page
exactly as the first replay left it: contents, trailer links, back-reference,
metadata fields and stored log positions. -/
theorem tpd_redo_idempotent (env : Env C) (record : XLogReaderState C) (s : Pages C)
    (hok : (tpd_redo env record s).isOk = true) :
    tpd_redo env record (tpd_redo env record s).pages = tpd_redo env record s := by
  unfold tpd_redo at hok ⊢
  by_cases ha : maskedInfo env record &&& env.XLOG_TPD_OPMASK = env.XLOG_ALLOCATE_TPD_ENTRY
  · simp only [ha, if_true] at hok ⊢
    exact allocate_entry_again env record s hok
  · simp only [ha, if_false] at hok ⊢
    by_cases hc : maskedInfo env record &&& env.XLOG_TPD_OPMASK = env.XLOG_TPD_CLEAN
    · simp only [hc, if_true] at hok ⊢
      exact clean_again env record s hok
    · simp only [hc, if_false] at hok ⊢
      by_cases hl : maskedInfo env record &&& env.XLOG_TPD_OPMASK = env.XLOG_TPD_CLEAR_LOCATION
      · simp only [hl, if_true] at hok ⊢
        exact clear_again env record s hok
      · simp only [hl, if_false] at hok
        simp [Outcome.isOk] at hok

/-- Witness for C2: the sample allocate-entry record (image for the directory
page, delta for the data page, metadata overwrite, image for the previous
tail) replayed twice on the sample pages. -/
theorem tpd_redo_idempotent_witness :
    tpd_redo sampleEnv allocImageRecord (tpd_redo sampleEnv allocImageRecord samplePages).pages
      = tpd_redo sampleEnv allocImageRecord samplePages :=
  tpd_redo_idempotent sampleEnv allocImageRecord samplePages (by decide)

/-! ## C8: chain integrity -/

theorem tpd_redo_of_allocate (env : Env C) (record : XLogReaderState C) (s : Pages C)
    (h : opCode env record = env.XLOG_ALLOCATE_TPD_ENTRY) :
    tpd_redo env record s = tpd_xlog_allocate_entry env record s := by
  unfold opCode at h
  simp [tpd_redo, h]

theorem tpd_redo_frame (env : Env C) (record : XLogReaderState C) (s : Pages C)
    (x : BlockNumber) (h : ∀ k, k < 4 → refBlk record k ≠ some x) :
    (tpd_redo env record s).pages x = s x := by
  unfold tpd_redo
  simp only []
  split
  · exact allocate_entry_frame env record s x (h 0 (by decide)) (h 1 (by decide))
      (h 2 (by decide)) (h 3 (by decide))
  · split
    · exact clean_frame env record s x (h 0 (by decide))
    · split
      · exact clear_frame env record s x (h 0 (by decide))
      · rfl

theorem replay_frame (env : Env C) (recs : List (XLogReaderState C)) (s : Pages C)
    (x : BlockNumber) (h : ∀ r ∈ recs, ∀ k, k < 4 → refBlk r k ≠ some x) :
    (replay env recs s).pages x = s x := by
  induction recs generalizing s with
  | nil => rfl
  | cons r rest ih =>
    have e := tpd_redo_frame env r s x (h r (List.mem_cons_self _ _))
    unfold replay
    cases hr : tpd_redo env r s with
    | fatal w t =>
      rw [hr] at e
      exact e
    | ok u t =>
      rw [hr] at e
      simp only []
      rw [ih t (fun r' hr' => h r' (List.mem_cons_of_mem _ hr'))]
      exact e

theorem lastused_prev_preserved (env : Env C) (record : XLogReaderState C) (t : Pages C)
    (x : BlockNumber) (p : Page C) (hp : t x = some p) :
    ∃ q, (tpd_xlog_allocate_entry_lastused env record t).pages x = some q ∧
      q.tpd_prevblkno = p.tpd_prevblkno := by
  by_cases h3 : refBlk record 3 = some x
  · rcases read_cases env record 3 false t with
      ⟨hr, _⟩ | ⟨ref, img, hr, hi, _⟩ | ⟨ref, hr, hi, hq, _⟩ | ⟨ref, q, hr, hi, hq, hl, _⟩ |
      ⟨ref, q, hr, hi, hq, hl, _⟩
    · rw [lastused_noref env record t hr]
      exact ⟨p, hp, rfl⟩
    · have hbe := refBlk_eq record 3 ref x hr h3
      subst hbe
      rw [lastused_restored env record t ref img hr hi]
      simp only [Outcome.pages, setPage_same, hp, Option.getD_some]
      exact ⟨_, rfl, rfl⟩
    · rw [lastused_notfound env record t ref hr hi hq]
      exact ⟨p, hp, rfl⟩
    · rw [lastused_done env record t ref q hr hi hq hl]
      exact ⟨p, hp, rfl⟩
    · have hbe := refBlk_eq record 3 ref x hr h3
      subst hbe
      rw [hp] at hq
      cases hq
      rw [lastused_needs_redo env record t ref p hr hi hp hl]
      simp only [Outcome.pages, setPage_same]
      exact ⟨_, rfl, rfl⟩
  · rw [lastused_frame env record t x h3]
    exact ⟨p, hp, rfl⟩

theorem metapage_prev_preserved (env : Env C) (record : XLogReaderState C) (t : Pages C)
    (x : BlockNumber) (p : Page C) (h2 : refBlk record 2 ≠ some x) (hp : t x = some p) :
    ∃ q, (tpd_xlog_allocate_entry_metapage env record t).pages x = some q ∧
      q.tpd_prevblkno = p.tpd_prevblkno := by
  cases hr : record.blocks 2 with
  | none =>
    rw [metapage_noref env record t hr]
    exact ⟨p, hp, rfl⟩
  | some r2 =>
    have hb : x ≠ r2.blkno := fun e => h2 (by simp [refBlk, hr, e])
    rw [metapage_ref env record t r2 hr]
    split
    · exact ⟨p, by simp [Outcome.pages, setPage_other, hb, hp], rfl⟩
    · split
      · exact ⟨p, by simp [Outcome.pages, setPage_other, hb, hp], rfl⟩
      · exact lastused_prev_preserved env record _ x p (by rw [setPage_other _ _ _ _ hb, hp])

/-- A page that a record names at most as block 3 keeps its prev link through
allocate-entry redo. -/
theorem allocate_prev_preserved (env : Env C) (record : XLogReaderState C) (s : Pages C)
    (x : BlockNumber) (p : Page C) (h0 : refBlk record 0 ≠ some x)
    (h1 : refBlk record 1 ≠ some x) (h2 : refBlk record 2 ≠ some x) (hp : s x = some p) :
    ∃ q, (tpd_xlog_allocate_entry env record s).pages x = some q ∧
      q.tpd_prevblkno = p.tpd_prevblkno := by
  have e0 := tpdpage_frame env record s x h0
  cases ha : tpd_xlog_allocate_entry_tpdpage env record s with
  | fatal w t =>
    rw [ha] at e0
    rw [allocate_of_tpd_fatal env record s t w ha]
    exact ⟨p, e0.trans hp, rfl⟩
  | ok buf t =>
    rw [ha] at e0
    have e1 := heappage_frame env record buf t x h1
    cases hb : tpd_xlog_allocate_entry_heappage env record buf t with
    | fatal w t1 =>
      rw [hb] at e1
      rw [allocate_of_heap_fatal env record s t t1 buf w ha hb]
      exact ⟨p, (e1.trans e0).trans hp, rfl⟩
    | ok u t1 =>
      rw [hb] at e1
      rw [allocate_of_heap_ok env record s t t1 buf u ha hb]
      exact metapage_prev_preserved env record t1 x p h2 ((e1.trans e0).trans hp)

theorem replay_prev_preserved (env : Env C) (recs : List (XLogReaderState C)) (s : Pages C)
    (x : BlockNumber) (p : Page C)
    (h : ∀ r ∈ recs, opCode env r = env.XLOG_ALLOCATE_TPD_ENTRY ∧ refBlk r 0 ≠ some x ∧
      refBlk r 1 ≠ some x ∧ refBlk r 2 ≠ some x)
    (hp : s x = some p) :
    ∃ q, (replay env recs s).pages x = some q ∧ q.tpd_prevblkno = p.tpd_prevblkno := by
  induction recs generalizing s p with
  | nil => exact ⟨p, hp, rfl⟩
  | cons r rest ih =>
    obtain ⟨hop, h0, h1, h2⟩ := h r (List.mem_cons_self _ _)
    obtain ⟨q, hq, hqp⟩ := allocate_prev_preserved env r s x p h0 h1 h2 hp
    rw [← tpd_redo_of_allocate env r s hop] at hq
    unfold replay
    cases hr : tpd_redo env r s with
    | fatal w t =>
      rw [hr] at hq
      exact ⟨q, hq, hqp⟩
    | ok u t =>
      rw [hr] at hq
      simp only []
      obtain ⟨q', hq', hqp'⟩ := ih t q (fun r' hr' => h r' (List.mem_cons_of_mem _ hr')) hq
      exact ⟨q', hq', hqp'.trans hqp⟩

theorem replay_cons (env : Env C) (r : XLogReaderState C) (rest : List (XLogReaderState C))
    (s : Pages C) :
    replay env (r :: rest) s =
      match tpd_redo env r s with
      | .ok _ t => replay env rest t
      | .fatal w t => .fatal w t := rfl

theorem replay_cons_ok (env : Env C) (r : XLogReaderState C) (rest : List (XLogReaderState C))
    (s : Pages C) (hok : (replay env (r :: rest) s).isOk = true) :
    (tpd_redo env r s).isOk = true ∧
      replay env (r :: rest) s = replay env rest (tpd_redo env r s).pages := by
  rw [replay_cons] at hok ⊢
  cases hr : tpd_redo env r s with
  | fatal w t =>
    rw [hr] at hok
    simp [Outcome.isOk] at hok
  | ok u t => exact ⟨rfl, rfl⟩

/-- After a completed allocate-entry redo of an init-page record, the new
directory page carries the record's prev link and end position. -/
theorem allocate_init_page_fields (env : Env C) (record : XLogReaderState C) (s : Pages C)
    (cur : BlockNumber) (hf : isInitPage env record) (h0 : refBlk record 0 = some cur)
    (h1 : refBlk record 1 ≠ some cur) (h2 : refBlk record 2 ≠ some cur)
    (h3 : refBlk record 3 ≠ some cur)
    (hok : (tpd_xlog_allocate_entry env record s).isOk = true) :
    ∃ c, (tpd_xlog_allocate_entry env record s).pages cur = some c ∧
      c.tpd_prevblkno = record.xlrec.prevblk ∧ c.lsn = record.EndRecPtr := by
  obtain ⟨buf, t, t1, ha, _, _⟩ := allocate_ok_inv env record s hok
  cases hr0 : record.blocks 0 with
  | none => simp [refBlk, hr0] at h0
  | some r =>
    have hbe := refBlk_eq record 0 r cur hr0 h0
    subst hbe
    rw [allocate_pages_eq_tpdpage env record s _ h1 h2 h3, ha]
    rw [tpdpage_init env record s r hf hr0] at ha
    obtain ⟨_, ht, _⟩ := add_ok_inv env record _ _ _ _ _ (setPage_same _ _ _) ha
    rw [ht]
    simp only [Outcome.pages, setPage_same]
    exact ⟨_, rfl, rfl, rfl⟩

theorem chainRecords_blocks (env : Env C) (M first : BlockNumber)
    (chain : List (XLogReaderState C × BlockNumber)) :
    ∀ (pl : BlockNumber × XLogRecPtr), ChainRecords env M first (some pl) chain →
      ∀ rc ∈ chain, opCode env rc.1 = env.XLOG_ALLOCATE_TPD_ENTRY ∧
        refBlk rc.1 0 = some rc.2 ∧ refBlk rc.1 2 = some M ∧
        ∃ y, refBlk rc.1 3 = some y ∧ y ∈ pl.1 :: chain.map Prod.snd := by
  induction chain with
  | nil =>
    intro pl _ rc hrc
    cases hrc
  | cons rc0 rest ih =>
    intro pl h rc hrc
    obtain ⟨⟨hop, _, h0, h2, _, _, h3, _⟩, hrest⟩ := h
    rcases List.mem_cons.mp hrc with e | e
    · subst e
      exact ⟨hop, h0, h2, pl.1, h3, List.mem_cons_self _ _⟩
    · obtain ⟨a, b, c, y, hy, hmem⟩ := ih _ hrest rc e
      exact ⟨a, b, c, y, hy, List.mem_cons_of_mem _ hmem⟩

/-- What one record of a chain does to the page it creates, to the metadata
page and to the previous tail. -/
theorem chain_step (env : Env C) (M first : BlockNumber)
    (prev : Option (BlockNumber × XLogRecPtr)) (r : XLogReaderState C) (cur : BlockNumber)
    (s : Pages C) (hrec : IsChainRecord env M first prev r cur)
    (hcm : M ≠ cur) (h1c : refBlk r 1 ≠ some cur)
    (hprev : ∀ pl ∈ prev, pl.1 ≠ cur ∧ pl.1 ≠ M ∧ refBlk r 1 ≠ some pl.1 ∧
      ∃ p, s pl.1 = some p ∧ p.lsn ≤ pl.2)
    (hok : (tpd_redo env r s).isOk = true) :
    (∃ c, (tpd_redo env r s).pages cur = some c ∧ c.lsn ≤ r.EndRecPtr ∧
      ∀ pl ∈ prev, c.tpd_prevblkno = pl.1) ∧
    (∃ m, (tpd_redo env r s).pages M = some m ∧ m.first_used = first ∧ m.last_used = cur) ∧
    (∀ pl ∈ prev, ∃ q, (tpd_redo env r s).pages pl.1 = some q ∧ q.tpd_nextblkno = cur) := by
  obtain ⟨hop, hf, h0, h2, hfirst, hlast, h3⟩ := hrec
  rw [tpd_redo_of_allocate env r s hop] at hok ⊢
  have h2c : refBlk r 2 ≠ some cur := by
    rw [h2]
    exact fun e => hcm (Option.some.inj e)
  have h3c : refBlk r 3 ≠ some cur := by
    cases prev with
    | none =>
      simp only at h3
      rw [h3]
      exact fun e => by cases e
    | some pl =>
      simp only at h3
      rw [h3.1]
      exact fun e => (hprev pl rfl).1 (Option.some.inj e)
  have h3m : refBlk r 3 ≠ some M := by
    cases prev with
    | none =>
      simp only at h3
      rw [h3]
      exact fun e => by cases e
    | some pl =>
      simp only at h3
      rw [h3.1]
      exact fun e => (hprev pl rfl).2.1 (Option.some.inj e)
  refine ⟨?_, ?_, ?_⟩
  · obtain ⟨c, hc, hcp, hcl⟩ := allocate_init_page_fields env r s cur hf h0 h1c h2c h3c hok
    refine ⟨c, hc, Nat.le_of_eq hcl, ?_⟩
    intro pl hpl
    cases hpl
    simp only at h3
    rw [hcp, h3.2.1]
  · cases hr2 : r.blocks 2 with
    | none => simp [refBlk, hr2] at h2
    | some r2 =>
      have hbe := refBlk_eq r 2 r2 M hr2 h2
      subst hbe
      obtain ⟨m, hm, hmf, hml, _⟩ := allocate_metadata_fields env r s r2 hr2 h3m hok
      have hdata : XLogRecGetBlockData r 2 = r2.data := by simp [XLogRecGetBlockData, hr2]
      rw [hdata] at hfirst hlast
      exact ⟨m, hm, hmf.trans hfirst, hml.trans hlast⟩
  · intro pl hpl
    cases hpl
    simp only at h3
    obtain ⟨hpc, hpm, hp1, p, hp, hplsn⟩ := hprev pl rfl
    have hlt : p.lsn < r.EndRecPtr := Nat.lt_of_le_of_lt hplsn h3.2.2.2
    have hd : redoAction env r 3 s = some .BLK_RESTORED ∨
        redoAction env r 3 s = some .BLK_NEEDS_REDO := by
      rcases redoAction_eq env r 3 s with
        ⟨hr, _⟩ | ⟨_, _, _, _, e⟩ | ⟨ref, hr, _, hq, _⟩ | ⟨ref, q, hr, _, hq, hl, _⟩ |
        ⟨_, _, _, _, _, _, e⟩
      · simp [refBlk, hr] at h3
      · exact Or.inl e
      · have hbe := refBlk_eq r 3 ref pl.1 hr h3.1
        rw [← hbe, hp] at hq
        cases hq
      · have hbe := refBlk_eq r 3 ref pl.1 hr h3.1
        rw [← hbe, hp] at hq
        cases hq
        exact absurd hlt (Nat.not_lt.mpr hl)
      · exact Or.inr e
    have hm2 : XLogRecHasBlockRef r 2 = true := by
      cases hr2 : r.blocks 2 with
      | none => simp [refBlk, hr2] at h2
      | some r2 => simp [XLogRecHasBlockRef, hr2]
    obtain ⟨q, hq, hn, _, _⟩ := allocate_lastused_link env r s pl.1 hm2 h3.1 hd
      (by rw [h0]; exact fun e => hpc (Option.some.inj e).symm) hp1
      (by rw [h2]; exact fun e => hpm (Option.some.inj e).symm) hok
    exact ⟨q, hq, hn.trans h3.2.2.1⟩

/-- The chain built by the records still to be replayed, attached to the tail
the page cache already holds. -/
theorem chain_from (env : Env C) (M first : BlockNumber)
    (chain : List (XLogReaderState C × BlockNumber)) :
    ∀ (s : Pages C) (prev : Option (BlockNumber × XLogRecPtr)),
      (∀ pl ∈ prev, ∃ p, s pl.1 = some p ∧ p.lsn ≤ pl.2) →
      ChainRecords env M first prev chain →
      ((prev.map Prod.fst).toList ++ chain.map Prod.snd).Nodup →
      M ∉ (prev.map Prod.fst).toList ++ chain.map Prod.snd →
      (∀ rc ∈ chain, ∀ b ∈ (prev.map Prod.fst).toList ++ chain.map Prod.snd,
        refBlk rc.1 1 ≠ some b) →
      (replay env (chain.map Prod.fst) s).isOk = true →
      List.Chain' (Linked (replay env (chain.map Prod.fst) s).pages)
          ((prev.map Prod.fst).toList ++ chain.map Prod.snd) ∧
        ∀ last, (chain.map Prod.snd).getLast? = some last →
          ∃ m, (replay env (chain.map Prod.fst) s).pages M = some m ∧
            m.first_used = first ∧ m.last_used = last := by
  induction chain with
  | nil =>
    intro s prev _ _ _ _ _ _
    refine ⟨?_, ?_⟩
    · cases prev <;> simp
    · intro last h
      simp at h
  | cons rc rest ih =>
    intro s prev hprev hrec hnodup hM hdata hok
    obtain ⟨hrc, hrest⟩ := hrec
    simp only [List.map_cons] at hnodup hM hdata hok ⊢
    have hcur_mem : rc.2 ∈ (prev.map Prod.fst).toList ++ rc.2 :: rest.map Prod.snd :=
      List.mem_append_right _ (List.mem_cons_self _ _)
    have hMc : M ≠ rc.2 := fun e => hM (e ▸ hcur_mem)
    have hsub : ∀ b, b ∈ rc.2 :: rest.map Prod.snd →
        b ∈ (prev.map Prod.fst).toList ++ rc.2 :: rest.map Prod.snd :=
      fun b hb => List.mem_append_right _ hb
    have hnodup' : (rc.2 :: rest.map Prod.snd).Nodup := (List.nodup_append.mp hnodup).2.1
    obtain ⟨hok1, hreplay⟩ := replay_cons_ok env rc.1 (rest.map Prod.fst) s hok
    have hprev' : ∀ pl ∈ prev, pl.1 ≠ rc.2 ∧ pl.1 ≠ M ∧ refBlk rc.1 1 ≠ some pl.1 ∧
        ∃ p, s pl.1 = some p ∧ p.lsn ≤ pl.2 := by
      intro pl hpl
      cases hpl
      have hmem : pl.1 ∈ (Option.map Prod.fst (some pl)).toList ++ rc.2 :: rest.map Prod.snd := by
        simp
      refine ⟨?_, ?_, hdata rc (List.mem_cons_self _ _) pl.1 hmem, hprev pl rfl⟩
      · intro e
        simp only [Option.map_some', Option.toList_some, List.singleton_append,
          List.nodup_cons, List.mem_cons] at hnodup
        exact hnodup.1 (Or.inl e)
      · intro e
        exact hM (e ▸ hmem)
    obtain ⟨⟨c, hc, hcl, hcp⟩, ⟨m, hm, hmf, hml⟩, hlink⟩ :=
      chain_step env M first prev rc.1 rc.2 s hrc hMc
        (hdata rc (List.mem_cons_self _ _) rc.2 hcur_mem) hprev' hok1
    rw [hreplay] at hok ⊢
    generalize htd : (tpd_redo env rc.1 s).pages = t at hc hm hlink hok ⊢
    obtain ⟨ihchain, ihmeta⟩ := ih t (some (rc.2, rc.1.EndRecPtr))
      (by
        intro pl hpl
        cases hpl
        exact ⟨c, hc, hcl⟩)
      hrest
      (by simpa using hnodup')
      (by
        intro hmem
        exact hM (hsub M (by simpa using hmem)))
      (by
        intro rc' hrc' b hb
        exact hdata rc' (List.mem_cons_of_mem _ hrc') b (hsub b (by simpa using hb)))
      hok
    have hblocks := chainRecords_blocks env M first rest (rc.2, rc.1.EndRecPtr) hrest
    refine ⟨?_, ?_⟩
    · simp only [Option.map_some', Option.toList_some, List.singleton_append] at ihchain
      cases prev with
      | none => simpa using ihchain
      | some pl =>
        simp only [Option.map_some', Option.toList_some, List.singleton_append] at hnodup hM hdata ⊢
        rw [List.chain'_cons]
        refine ⟨?_, ihchain⟩
        obtain ⟨q, hq, hqn⟩ := hlink pl rfl
        have hpl_notin : pl.1 ∉ rc.2 :: rest.map Prod.snd := (List.nodup_cons.mp hnodup).1
        have hframe : (replay env (rest.map Prod.fst) t).pages pl.1 = t pl.1 := by
          apply replay_frame
          intro r hr k hk
          obtain ⟨rc', hrc', e⟩ := List.mem_map.mp hr
          subst e
          obtain ⟨_, hb0, hb2, y, hy, hymem⟩ := hblocks rc' hrc'
          interval_cases k
          · rw [hb0]
            intro e
            exact hpl_notin (List.mem_cons_of_mem _
              ((Option.some.inj e) ▸ List.mem_map_of_mem Prod.snd hrc'))
          · exact hdata rc' (List.mem_cons_of_mem _ hrc') pl.1 (List.mem_cons_self _ _)
          · rw [hb2]
            intro e
            exact hM ((Option.some.inj e) ▸ List.mem_cons_self _ _)
          · rw [hy]
            intro e
            exact hpl_notin ((Option.some.inj e) ▸ hymem)
        obtain ⟨c', hc', hcp'⟩ := replay_prev_preserved env (rest.map Prod.fst) t rc.2 c
          (by
            intro r hr
            obtain ⟨rc', hrc', e⟩ := List.mem_map.mp hr
            subst e
            obtain ⟨hop, hb0, hb2, _⟩ := hblocks rc' hrc'
            refine ⟨hop, ?_, ?_, ?_⟩
            · rw [hb0]
              intro e
              exact (List.nodup_cons.mp hnodup').1
                ((Option.some.inj e) ▸ List.mem_map_of_mem Prod.snd hrc')
            · exact hdata rc' (List.mem_cons_of_mem _ hrc') rc.2
                (List.mem_cons_of_mem _ (List.mem_cons_self _ _))
            · rw [hb2]
              intro e
              exact hMc (Option.some.inj e))
          hc
        exact ⟨by rw [hframe, hq]; simp [hqn], by rw [hc']; simp [hcp', hcp pl rfl]⟩
    · intro last hlast
      by_cases hne : rest = []
      · subst hne
        simp only [List.map_nil, List.getLast?_singleton, Option.some.injEq] at hlast
        subst hlast
        exact ⟨m, hm, hmf, hml⟩
      · obtain ⟨rc2, rest2, hrest'⟩ := List.exists_cons_of_ne_nil hne
        apply ihmeta
        rw [← hlast, hrest']
        simp [List.getLast?_cons_cons]

/-- C8: chain integrity.  Records r1, …, rn are replayed in log order from any
page cache; record i initialises directory page Pi as block 0 with the
init-page flag, references the metadata page `M` with payload (P1, Pi), and
for i ≥ 2 references P(i-1) as block 3 with `prevblk = P(i-1)`,
`nextblk = Pi` and a log position later than record i-1.  The pages Pi are
pairwise different, none of them is the metadata page or a data page of one of
the records, and replay completes.  Then in the final page cache every
consecutive pair is linked — `Pi.tpd_nextblkno = P(i+1)` and
`P(i+1).tpd_prevblkno = Pi` — and the metadata page holds
`first_used = P1`, `last_used = Pn`. -/
theorem chain_integrity (env : Env C) (M first : BlockNumber)
    (chain : List (XLogReaderState C × BlockNumber)) (s0 : Pages C)
    (hrec : ChainRecords env M first none chain)
    (hfirst : (chain.map Prod.snd).head? = some first)
    (hnodup : (chain.map Prod.snd).Nodup) (hM : M ∉ chain.map Prod.snd)
    (hdata : ∀ rc ∈ chain, ∀ b ∈ chain.map Prod.snd, refBlk rc.1 1 ≠ some b)
    (hok : (replay env (chain.map Prod.fst) s0).isOk = true) :
    List.Chain' (Linked (replay env (chain.map Prod.fst) s0).pages) (chain.map Prod.snd) ∧
      ∃ m last, (chain.map Prod.snd).getLast? = some last ∧
        (replay env (chain.map Prod.fst) s0).pages M = some m ∧
        m.first_used = first ∧ m.last_used = last := by
  obtain ⟨hchain, hmeta⟩ := chain_from env M first chain s0 none
    (fun pl hpl => by cases hpl) hrec (by simpa using hnodup) (by simpa using hM)
    (by simpa using hdata) hok
  refine ⟨by simpa using hchain, ?_⟩
  cases hl : (chain.map Prod.snd).getLast? with
  | none =>
    rw [List.getLast?_eq_none_iff] at hl
    rw [hl] at hfirst
    cases hfirst
  | some last =>
    obtain ⟨m, hm, hmf, hml⟩ := hmeta last hl
    exact ⟨m, last, rfl, hm, hmf, hml⟩

/-- Witness for C8: the three sample records create pages 11 → 12 → 13 on top
of the sample pages, anchored at metadata page 0. -/
theorem chain_integrity_witness :
    List.Chain' (Linked (replay sampleEnv (sampleChain.map Prod.fst) samplePages).pages)
        [11, 12, 13] ∧
      ∃ m last, [11, 12, 13].getLast? = some last ∧
        (replay sampleEnv (sampleChain.map Prod.fst) samplePages).pages 0 = some m ∧
        m.first_used = 11 ∧ m.last_used = last :=
  chain_integrity sampleEnv 0 11 sampleChain samplePages
    ⟨⟨by decide, by decide, by decide, by decide, by decide, by decide, by decide⟩,
     ⟨by decide, by decide, by decide, by decide, by decide, by decide,
       ⟨by decide, by decide, by decide, by decide⟩⟩,
     ⟨by decide, by decide, by decide, by decide, by decide, by decide,
       ⟨by decide, by decide, by decide, by decide⟩⟩,
     trivial⟩
    (by decide) (by decide) (by decide) (by decide) (by decide)

end Zheap
